import Mathlib

/-!
# Verification of the chessAI engine core

Shallow embedding of the Go sources `board.go`, `moves.go`, `ai.go` and the
turn-loop file (`ComputerTurn`), together with proofs settling the frozen
claims about the specification.

Conventions of the embedding:
* Go `uint64` bit planes become `Nat`; every plane produced by the source
  operations stays below `2 ^ 64`, and the bit operations used
  (`>>`, `<<`, `&`, `|`, `&^` on single-bit masks) agree with the `Nat`
  versions in that range, so `Nat` equality coincides with Go equality of
  boards.
* Go `int` becomes `Int` (positions and moves can be negative), scores
  become `Int`.
* Go `bool`-typed two-value enums (`PieceColor`, `PieceStatus`) stay `Bool`,
  as in the source; `!color` is boolean negation as in the source.
* `GetBoardAt` / `SetBoardAt` panic in Go on an out-of-range position; they
  are modelled as total functions returning `EmptyPieceInfo` resp. the
  unchanged board there.  All call sites in the source guard the position,
  and every claim that touches this path carries an in-range hypothesis.
* Go maps are modelled as functions with the Go zero-value default
  (`pieceScoreMap`) or as association lists (the transposition table).
-/

namespace ChessAI

/-! ## board.go: data model -/

def PieceStatusBits : Nat := 3

def BitsPerSquare : Nat := PieceStatusBits + 2

/-- Go `type Piece uint8`; the seven defined kinds are the values 0..6. -/
abbrev Piece := Nat

def Piece_Empty : Piece := 0
def Piece_Pawn : Piece := 1
def Piece_Rock : Piece := 2
def Piece_Knight : Piece := 3
def Piece_Bishop : Piece := 4
def Piece_King : Piece := 5
def Piece_Queen : Piece := 6

/-- Go `type PieceStatus bool`. -/
abbrev PieceStatus := Bool

def PieceStatus_Default : PieceStatus := false
def PieceStatus_EnPassantAllowed : PieceStatus := true
def PieceStatus_CastlingNotAllowed : PieceStatus := true

/-- Go `type PieceColor bool`. -/
abbrev PieceColor := Bool

def PieceColor_White : PieceColor := true
def PieceColor_Black : PieceColor := false

structure PieceInfo where
  piece : Piece
  status : PieceStatus
  color : PieceColor
deriving DecidableEq, Repr

def EmptyPieceInfo : PieceInfo :=
  ⟨Piece_Empty, PieceStatus_Default, PieceColor_White⟩

/-- moves.go `type Position struct { x, y int }`. -/
structure Position where
  x : Int
  y : Int
deriving DecidableEq, Repr

/-- Go `type Board [BitsPerSquare]uint64`: five bit planes, one bit per
square.  Planes 0..2 hold the piece kind, plane 3 the status flag,
plane 4 the color flag. -/
structure Board where
  p0 : Nat
  p1 : Nat
  p2 : Nat
  p3 : Nat
  p4 : Nat
deriving DecidableEq, Repr

/-- The Go zero value `var bestMove Board`. -/
def zeroBoard : Board := ⟨0, 0, 0, 0, 0⟩

def BoolToInt (b : Bool) : Nat :=
  if b then 1 else 0

def GetBitValue (bits pos : Nat) : Nat :=
  (bits >>> pos) &&& 1

/-- Go `(bits &^ (1 << pos)) | (value << pos)`; the and-not of a mask is
`bits ^^^ (bits &&& mask)`, which clears exactly the mask bits. -/
def SetBitValue (bits pos value : Nat) : Nat :=
  (bits ^^^ (bits &&& (1 <<< pos))) ||| (value <<< pos)

def PositionInBoard (pos : Position) : Bool :=
  if pos.x < 0 ∨ pos.x > 7 ∨ pos.y < 0 ∨ pos.y > 7 then false else true

/-- The square's bit index `pos.x + pos.y * 8` (taken under the in-range
guard, so the `toNat` never truncates). -/
def bitidx (pos : Position) : Nat :=
  (pos.x + pos.y * 8).toNat

/-- board.go `GetBoardAt`, with the per-bit loop over the three piece
planes unrolled.  The source panics on an out-of-range position. -/
def GetBoardAt (board : Board) (pos : Position) : PieceInfo :=
  if PositionInBoard pos then
    let bi := bitidx pos
    { piece := GetBitValue board.p0 bi ||| (GetBitValue board.p1 bi <<< 1) |||
        (GetBitValue board.p2 bi <<< 2)
      status := 1 == GetBitValue board.p3 bi
      color := 1 == GetBitValue board.p4 bi }
  else EmptyPieceInfo

/-- board.go `SetBoardAt` (value-returning; the Go version mutates through
a pointer).  The source panics on an out-of-range position. -/
def SetBoardAt (board : Board) (pos : Position) (info : PieceInfo) : Board :=
  if PositionInBoard pos then
    let bi := bitidx pos
    { p0 := SetBitValue board.p0 bi (GetBitValue info.piece 0)
      p1 := SetBitValue board.p1 bi (GetBitValue info.piece 1)
      p2 := SetBitValue board.p2 bi (GetBitValue info.piece 2)
      p3 := SetBitValue board.p3 bi (BoolToInt info.status)
      p4 := SetBitValue board.p4 bi (BoolToInt info.color) }
  else board

/-- The 64 positions in the scan order of board.go (`x` outer, `y` inner). -/
def allPositions : List Position :=
  (List.range 8).flatMap fun x : Nat =>
    (List.range 8).map fun y : Nat => ⟨(x : Int), (y : Int)⟩

def GetPieces (board : Board) (piece : Piece) (color : PieceColor) : List Position :=
  allPositions.filter fun pos =>
    let infoHere := GetBoardAt board pos
    piece == infoHere.piece && color == infoHere.color

def GetPiecesByColor (board : Board) (color : PieceColor) : List Position :=
  allPositions.filter fun pos =>
    let infoHere := GetBoardAt board pos
    color == infoHere.color && infoHere.piece != Piece_Empty

/-! ## moves.go: move topology and move generation -/

/-- moves.go `type Move struct { x, y int }`: a relative displacement. -/
structure Move where
  x : Int
  y : Int
deriving DecidableEq, Repr

structure FullMove where
  pos : Position
  move : Move
deriving DecidableEq, Repr

abbrev MoveSeq := List Move

abbrev MoveSeqs := List MoveSeq

def PositionAdd (pos : Position) (move : Move) : Position :=
  ⟨pos.x + move.x, pos.y + move.y⟩

def PositionDiff (pos : Position) (move : Move) : Position :=
  ⟨pos.x - move.x, pos.y - move.y⟩

/-- The pawn entry of `initMovesMap`: single push then double push. -/
def pawnSeqs (color : PieceColor) : MoveSeqs :=
  let dir : Int := if color = PieceColor_White then -1 else 1
  [[⟨0, dir⟩, ⟨0, 2 * dir⟩]]

/-- The rock entry of `initMovesMap`: four rays of steps 1..7. -/
def rockSeqs : MoveSeqs :=
  [(List.range 7).map fun i => ⟨0, (i : Int) + 1⟩,
   (List.range 7).map fun i => ⟨0, -((i : Int) + 1)⟩,
   (List.range 7).map fun i => ⟨(i : Int) + 1, 0⟩,
   (List.range 7).map fun i => ⟨-((i : Int) + 1), 0⟩]

/-- The bishop entry of `initMovesMap`: four diagonal rays of steps 1..7. -/
def bishopSeqs : MoveSeqs :=
  [(List.range 7).map fun i => ⟨(i : Int) + 1, (i : Int) + 1⟩,
   (List.range 7).map fun i => ⟨-((i : Int) + 1), -((i : Int) + 1)⟩,
   (List.range 7).map fun i => ⟨(i : Int) + 1, -((i : Int) + 1)⟩,
   (List.range 7).map fun i => ⟨-((i : Int) + 1), (i : Int) + 1⟩]

def queenSeqs : MoveSeqs := rockSeqs ++ bishopSeqs

/-- The king entry of `initMovesMap`: the first step of each queen ray. -/
def kingSeqs : MoveSeqs := queenSeqs.map fun s => [s.headD ⟨0, 0⟩]

def knightSeqs : MoveSeqs :=
  [[⟨-2, -1⟩], [⟨-1, -2⟩], [⟨2, 1⟩], [⟨1, 2⟩],
   [⟨-2, 1⟩], [⟨-1, 2⟩], [⟨2, -1⟩], [⟨1, -2⟩]]

/-- `movesMap` built by `initMovesMap`; a Go map lookup of an absent key
(`Piece_Empty` or an undefined value) yields the zero value `nil`. -/
def movesMap (color : PieceColor) (piece : Piece) : MoveSeqs :=
  if piece = Piece_Pawn then pawnSeqs color
  else if piece = Piece_Rock then rockSeqs
  else if piece = Piece_Bishop then bishopSeqs
  else if piece = Piece_Queen then queenSeqs
  else if piece = Piece_King then kingSeqs
  else if piece = Piece_Knight then knightSeqs
  else []

/-- moves.go `resetPawnsStatus`: the Go range expression is evaluated once
on the original board, then the board is updated square by square. -/
def resetPawnsStatus (board : Board) (color : PieceColor) : Board :=
  (GetPieces board Piece_Pawn color).foldl
    (fun b pos =>
      let info := GetBoardAt b pos
      SetBoardAt b pos ⟨info.piece, PieceStatus_Default, info.color⟩)
    board

/-- moves.go `ApplyMove`.  The Go float-based test
`math.Abs(float64(move.y)) == 2` is `move.y.natAbs = 2`. -/
def ApplyMove (board : Board) (fullMove : FullMove) (updateStates : Bool) : Board :=
  let info := GetBoardAt board fullMove.pos
  let bi : Board × PieceInfo :=
    if updateStates then
      let b := resetPawnsStatus board info.color
      let info :=
        if info.piece = Piece_King ∨ info.piece = Piece_Rock then
          { info with status := PieceStatus_CastlingNotAllowed }
        else info
      let info :=
        if info.piece = Piece_Pawn ∧ fullMove.move.y.natAbs = 2 then
          { info with status := PieceStatus_EnPassantAllowed }
        else info
      let info :=
        if info.piece = Piece_Pawn ∧ fullMove.move.y.natAbs = 1 then
          { info with status := PieceStatus_Default }
        else info
      (b, info)
    else (board, info)
  let board := SetBoardAt bi.1 fullMove.pos EmptyPieceInfo
  SetBoardAt board (PositionAdd fullMove.pos fullMove.move) bi.2

/-- moves.go `ApplyCastling`. -/
def ApplyCastling (board : Board) (kingPos : Position) (kingInfo : PieceInfo)
    (direction : Int) : Board :=
  let rockMove : FullMove :=
    if direction < 0 then ⟨⟨0, kingPos.y⟩, ⟨3, 0⟩⟩ else ⟨⟨7, kingPos.y⟩, ⟨-2, 0⟩⟩
  let newBoard := SetBoardAt board rockMove.pos
    ⟨Piece_Rock, PieceStatus_CastlingNotAllowed, kingInfo.color⟩
  let newBoard := SetBoardAt newBoard kingPos
    ⟨kingInfo.piece, PieceStatus_CastlingNotAllowed, kingInfo.color⟩
  let kingMove : FullMove := ⟨kingPos, ⟨direction * 2, 0⟩⟩
  let newBoard := ApplyMove newBoard rockMove true
  ApplyMove newBoard kingMove true

/-- moves.go `ApplyEnPassant`. -/
def ApplyEnPassant (board : Board) (fullMove : FullMove) (updateStates : Bool) : Board :=
  let newPos := PositionAdd fullMove.pos fullMove.move
  let board := ApplyMove board fullMove updateStates
  SetBoardAt board ⟨newPos.x, fullMove.pos.y⟩ EmptyPieceInfo

/-- moves.go `ApplyPawnPromotion`. -/
def ApplyPawnPromotion (board : Board) (fullMove : FullMove) (selectedPiece : Piece)
    (updateStates : Bool) : Board :=
  let info := GetBoardAt board fullMove.pos
  let newPos := PositionAdd fullMove.pos fullMove.move
  let board := ApplyMove board fullMove updateStates
  let status :=
    if selectedPiece = Piece_Rock then PieceStatus_CastlingNotAllowed
    else PieceStatus_Default
  SetBoardAt board newPos ⟨selectedPiece, status, info.color⟩

def availablePromotions : List Piece :=
  [Piece_Queen, Piece_Rock, Piece_Bishop, Piece_Knight]

/-- moves.go `addPawnMove`; `updateStates` is the constant `true` inside. -/
def addPawnMove (board : Board) (info : PieceInfo) (move : FullMove)
    (isEnPassant : Bool) (moves : List Board) : List Board :=
  let newPos := PositionAdd move.pos move.move
  if newPos.y ≠ 0 ∧ newPos.y ≠ 7 then
    moves ++ [if isEnPassant then ApplyEnPassant board move true
              else ApplyMove board move true]
  else
    moves ++ availablePromotions.map fun newPiece =>
      let status :=
        if newPiece = Piece_Rock then PieceStatus_CastlingNotAllowed
        else PieceStatus_Default
      let newBoard := ApplyPawnPromotion board move newPiece true
      SetBoardAt newBoard newPos ⟨newPiece, status, info.color⟩

/-- The body of the `xDirections` loop of `addPawnSpecialMoves`. -/
def pawnSpecialStep (board : Board) (pos : Position) (info : PieceInfo)
    (yDirection : Int) (newMoves : List Board) (xDirection : Int) : List Board :=
  let newy := pos.y + yDirection
  let newx := pos.x + xDirection
  let fullMove : FullMove := ⟨pos, ⟨xDirection, yDirection⟩⟩
  if newx < 0 ∨ newx > 7 then newMoves
  else
    let enemyInfo := GetBoardAt board ⟨newx, newy⟩
    if enemyInfo.piece ≠ Piece_Empty then
      if enemyInfo.color ≠ info.color then
        addPawnMove board info fullMove false newMoves
      else newMoves
    else
      let enPassantInfo := GetBoardAt board ⟨newx, pos.y⟩
      if enPassantInfo.color ≠ info.color ∧ enPassantInfo.piece = Piece_Pawn ∧
          enPassantInfo.status = PieceStatus_EnPassantAllowed then
        newMoves ++ addPawnMove board info fullMove true []
      else newMoves

/-- moves.go `addPawnSpecialMoves`. -/
def addPawnSpecialMoves (board : Board) (pos : Position) (info : PieceInfo)
    (moves : List Board) : List Board :=
  let yDirection : Int := if info.color = PieceColor_White then -1 else 1
  let newy := pos.y + yDirection
  if newy < 0 ∨ newy > 7 then moves
  else
    [(-1 : Int), 1].foldl (pawnSpecialStep board pos info yDirection) moves

/-- The per-ray walk inside `GetPossibleMoves`: step along the ray until
the board edge or an occupied square; an enemy square is a capture except
for pawns. -/
def walkSeq (board : Board) (pos : Position) (info : PieceInfo) : MoveSeq → List Move
  | [] => []
  | move :: rest =>
    let newPos := PositionAdd pos move
    if !PositionInBoard newPos then []
    else
      let infoHere := GetBoardAt board newPos
      if infoHere.piece = Piece_Empty then move :: walkSeq board pos info rest
      else if infoHere.color ≠ info.color ∧ info.piece ≠ Piece_Pawn then [move]
      else []

/-- The body of `GetPossibleMoves` up to (and excluding) the castling and
check-filter steps.  `GetPossibleMoves board pos info false true` in the
source is exactly this function at `quickMode = true`; splitting it out
breaks the (bounded, two-level) recursion through `isUnderAttack`. -/
def pseudoMoves (board : Board) (pos : Position) (info : PieceInfo)
    (quickMode : Bool) : List Board :=
  let seqs := movesMap info.color info.piece
  let moves := seqs.flatMap (walkSeq board pos info)
  let updateStates := !quickMode
  let boards := moves.map fun m => ApplyMove board ⟨pos, m⟩ updateStates
  let moves :=
    if (info.piece = Piece_Pawn ∧ moves ≠ []) ∧
        ((info.color = PieceColor_Black ∧ pos.y ≠ 1) ∨
         (info.color = PieceColor_White ∧ pos.y ≠ 6)) then
      moves.take 1
    else moves
  if info.piece = Piece_Pawn then
    let boards :=
      match moves with
      | [m] => addPawnMove board info ⟨pos, m⟩ false []
      | _ => boards
    addPawnSpecialMoves board pos info boards
  else boards

/-- moves.go `isUnderAttack`; the inner call is
`GetPossibleMoves(board, ePos, enemyInfo, false, true)`, which is
`pseudoMoves` at `quickMode = true` (no castling, no check filter). -/
def isUnderAttack (board : Board) (pos : Position) (color : PieceColor) : Bool :=
  (GetPiecesByColor board (!color)).any fun ePos =>
    let enemyInfo := GetBoardAt board ePos
    (pseudoMoves board ePos enemyInfo true).any fun enemyMove =>
      let infoHere := GetBoardAt enemyMove pos
      infoHere.piece != Piece_Empty && infoHere.color != color

/-- moves.go `removeCheckMoves`.  On a board without the mover's king the
source prints a debug dump and then panics indexing `[0]`; that case is
modelled as keeping the board, and every claim touching this function
carries a king-present hypothesis. -/
def removeCheckMoves (boards : List Board) (color : PieceColor) : List Board :=
  boards.filter fun b =>
    match GetPieces b Piece_King color with
    | [] => true
    | kingPos :: _ => !isUnderAttack b kingPos color

/-- The `xi` values visited by a Go loop
`for xi := start; xi != stop; xi += step`; the fuel argument (8 at the
call sites) bounds it, which is enough for any start column inside the
board. -/
def intSteps (stop step : Int) : Nat → Int → List Int
  | 0, _ => []
  | fuel + 1, xi =>
    if xi = stop then [] else xi :: intSteps stop step fuel (xi + step)

/-- The first `xi` loop of `addCastlingMove`, walking the squares strictly
between king and rock: all must be empty. -/
def castlingEmptyPath (board : Board) (y : Int) : List Int → Bool
  | [] => true
  | xi :: rest =>
    if (GetBoardAt board ⟨xi, y⟩).piece = Piece_Empty then
      castlingEmptyPath board y rest
    else false

/-- The second `xi` loop of `addCastlingMove`: neither the king square nor
the two squares toward the rock may be under attack. -/
def castlingAttackPath (board : Board) (y : Int) (color : PieceColor) : List Int → Bool
  | [] => true
  | xi :: rest =>
    if isUnderAttack board ⟨xi, y⟩ color then false
    else castlingAttackPath board y color rest

/-- moves.go `addCastlingMove`; the Go `(newBoard, ok)` named returns start
as the zero board and `false`.  The two source `for` loops are walked over
their `intSteps` ranges. -/
def addCastlingMove (board : Board) (kingPos : Position) (kingInfo : PieceInfo)
    (direction : Int) : Board × Bool :=
  let rockPos : Position := if direction = 1 then ⟨7, kingPos.y⟩ else ⟨0, kingPos.y⟩
  let rockInfo := GetBoardAt board rockPos
  if rockInfo.piece ≠ Piece_Rock ∨ rockInfo.status ≠ PieceStatus_Default ∨
      rockInfo.color ≠ kingInfo.color then
    (zeroBoard, false)
  else if castlingEmptyPath board kingPos.y
      (intSteps rockPos.x direction 8 (kingPos.x + direction)) = false then
    (zeroBoard, false)
  else if castlingAttackPath board kingPos.y kingInfo.color
      (intSteps (kingPos.x + 3 * direction) direction 8 kingPos.x) = false then
    (zeroBoard, false)
  else
    (ApplyCastling board kingPos kingInfo direction, true)

/-- moves.go `addCastlingMoves`. -/
def addCastlingMoves (board : Board) (kingPos : Position) (kingInfo : PieceInfo)
    (moves : List Board) : List Board :=
  if kingInfo.status ≠ PieceStatus_Default then moves
  else
    [(-1 : Int), 1].foldl
      (fun newMoves dir =>
        let mv := addCastlingMove board kingPos kingInfo dir
        if mv.2 then newMoves ++ [mv.1] else newMoves)
      moves

/-- moves.go `GetPossibleMoves`: `pseudoMoves`, then castling for a king
outside quick mode, then the check filter. -/
def GetPossibleMoves (board : Board) (pos : Position) (info : PieceInfo)
    (filterCheckMoves quickMode : Bool) : List Board :=
  let boards := pseudoMoves board pos info quickMode
  let boards :=
    if !quickMode && info.piece == Piece_King then
      addCastlingMoves board pos info boards
    else boards
  if filterCheckMoves then removeCheckMoves boards info.color else boards

/-- moves.go `GetAllPossibleMoves`. -/
def GetAllPossibleMoves (board : Board) (color : PieceColor)
    (filterCheckMoves quickMode : Bool) : List Board :=
  (GetPiecesByColor board color).flatMap fun pos =>
    GetPossibleMoves board pos (GetBoardAt board pos) filterCheckMoves quickMode

/-- moves.go `GetPossibleMoveCount`; `quickMode` is the constant `true`. -/
def GetPossibleMoveCount (board : Board) (color : PieceColor)
    (filterCheckMoves : Bool) : Int :=
  (GetPiecesByColor board color).foldl
    (fun count pos =>
      count + (GetPossibleMoves board pos (GetBoardAt board pos) filterCheckMoves true).length)
    0

/-- moves.go `isCheckMate`.  The source indexes `GetPieces(...)[0]`
unconditionally and panics when the king is absent; that case is modelled
as `false`, and the claims about game status carry a king-present
hypothesis. -/
def isCheckMate (board : Board) (availableMoveCount : Int) (color : PieceColor) : Bool :=
  match GetPieces board Piece_King color with
  | [] => false
  | kingPos :: _ => availableMoveCount == 0 && isUnderAttack board kingPos color

/-- moves.go `GetGameStatus`; the Go named returns `(finished, draw,
winningColor)` start as `(true, false, false)` with `false = Black`. -/
def GetGameStatus (board : Board) (nextTurnColor : PieceColor)
    (availableMoveCount : Int) : Bool × Bool × PieceColor :=
  if isCheckMate board availableMoveCount nextTurnColor then
    (true, false, !nextTurnColor)
  else if availableMoveCount == 0 then (true, true, PieceColor_Black)
  else (false, false, PieceColor_Black)

/-! ## ai.go: evaluation and search -/

/-- ai.go `pieceScoreMap`; a Go map lookup of an absent key
(`Piece_Empty` or an undefined piece value) yields the zero value 0. -/
def pieceScoreMap (p : Piece) : Int :=
  if p = Piece_King then 1000
  else if p = Piece_Queen then 9
  else if p = Piece_Knight then 3
  else if p = Piece_Bishop then 3
  else if p = Piece_Rock then 5
  else if p = Piece_Pawn then 1
  else 0

/-- ai.go `getPiecesScore`. -/
def getPiecesScore (board : Board) (color : PieceColor) : Int :=
  (GetPiecesByColor board color).foldl
    (fun score pos => score + pieceScoreMap (GetBoardAt board pos).piece) 0

/-- ai.go `EvaluateBoard`. -/
def EvaluateBoard (board : Board) (color : PieceColor) : Int :=
  let drawScore : Int := -100
  let checkMateScore : Int := 1000
  let filterCheckMoves := true
  let moveCount := GetPossibleMoveCount board color filterCheckMoves
  let enemyMoveCount := GetPossibleMoveCount board (!color) filterCheckMoves
  let moveScore := moveCount - enemyMoveCount
  let pieceScore := getPiecesScore board color
  let enemyPieceScore := getPiecesScore board (!color)
  let combinedPieceScore := pieceScore - enemyPieceScore
  let st := GetGameStatus board color moveCount
  if st.1 then
    if st.2.1 then drawScore
    else if st.2.2 = color then checkMateScore
    else -checkMateScore
  else moveScore + combinedPieceScore * 2

def biggestScore : Int := 100000

def lowestScore : Int := -biggestScore

/-- The Go transposition table `map[Board]int`, shared by reference across
the whole search; modelled as an association list threaded through and
returned by every call.  Insertion conses at the head, which matches the
overwrite semantics of a Go map assignment under first-match lookup. -/
abbrev Table := List (Board × Int)

def tableFind : Table → Board → Option Int
  | [], _ => none
  | (k, v) :: rest, b => if k = b then some v else tableFind rest b

/-- The move loop of `NegamaxAlphaBeta`: per candidate, table lookup or
recursion (through `recur`, the search at one less depth with color
already flipped), negation, best tracking, alpha update, and the
`alpha > beta` break. -/
def abLoop (recur : Board → Int → Int → Table → Int × Table) (beta : Int) :
    List Board → Int → Board → Int → Table → Board × Int × Table
  | [], _, bestMove, bestScore, t => (bestMove, bestScore, t)
  | move :: rest, alpha, bestMove, bestScore, t =>
    let st :=
      match tableFind t move with
      | some cached => (cached, t)
      | none =>
        let rt := recur move (-beta) (-alpha) t
        (rt.1, (move, rt.1) :: rt.2)
    let score := -st.1
    let best : Board × Int :=
      if score > bestScore then (move, score) else (bestMove, bestScore)
    let alpha := max alpha score
    if alpha > beta then (best.1, best.2, st.2)
    else abLoop recur beta rest alpha best.1 best.2 st.2

/-- ai.go `NegamaxAlphaBeta`, with the depth recursion made explicit via
`Nat.rec` so that the definition reduces inside the kernel.  At depth 0 it
returns the board with its static evaluation; otherwise it runs `abLoop`
over the legal moves, with the Go zero-value initial `bestMove`
(`zeroBoard`) and initial `bestScore = lowestScore`. -/
def NegamaxAlphaBeta (maxDepth : Nat) :
    Board → PieceColor → Int → Int → Table → Board × Int × Table :=
  Nat.rec
    (fun board color _ _ t => (board, EvaluateBoard board color, t))
    (fun _ prev board color alpha beta t =>
      let moves := GetAllPossibleMoves board color true false
      abLoop
        (fun m a b tt =>
          let r := prev m (!color) a b tt
          (r.2.1, r.2.2))
        beta moves alpha zeroBoard lowestScore t)
    maxDepth

/-- ai.go `Negamax`: fresh table, widest window (sign-flipped for Black,
which is a no-op since the window is symmetric). -/
def Negamax (board : Board) (color : PieceColor) (maxDepth : Nat) : Board × Int :=
  let alpha := lowestScore
  let beta := biggestScore
  let w : Int × Int := if color = PieceColor_Black then (-beta, -alpha) else (alpha, beta)
  let r := NegamaxAlphaBeta maxDepth board color w.1 w.2 []
  (r.1, r.2.1)

/-- Modelled from the spec: the unpruned, uncached full negamax reference
search of §4.6 / §8 ("`search` with alpha-beta pruning returns the same
best score as an unpruned full minimax search at the same depth").  Depth
0 is the static evaluation; otherwise it is the maximum over all legal
moves of the negated reference value of the child, starting from the same
empty-move default `lowestScore` as the pruned search. -/
def specFullNegamax : Nat → Board → PieceColor → Int
  | 0, board, color => EvaluateBoard board color
  | d + 1, board, color =>
    (GetAllPossibleMoves board color true false).foldl
      (fun best m => max best (-specFullNegamax d m (!color))) lowestScore

/-! ## turn loop (`ComputerTurn` from the unnamed source file) -/

/-- `ComputerTurn`: when the quick-mode filtered move count is zero the
engine reports no move (Go named returns: zero board and `false`) without
searching; otherwise it searches at the fixed depth 3. -/
def ComputerTurn (board : Board) (color : PieceColor) : Board × Bool :=
  if GetPossibleMoveCount board color true = 0 then (zeroBoard, false)
  else
    let r := Negamax board color 3
    (r.1, true)

/-! ## Proof-layer helper definitions -/

/-- The status adjustment `ApplyMove` performs on the moving piece when
`updateStates` holds (the reassignments of `info.status` in the source,
factored out for the lemmas below). -/
def applyMoveInfo (info : PieceInfo) (move : Move) : PieceInfo :=
  let info :=
    if info.piece = Piece_King ∨ info.piece = Piece_Rock then
      { info with status := PieceStatus_CastlingNotAllowed }
    else info
  let info :=
    if info.piece = Piece_Pawn ∧ move.y.natAbs = 2 then
      { info with status := PieceStatus_EnPassantAllowed }
    else info
  if info.piece = Piece_Pawn ∧ move.y.natAbs = 1 then
    { info with status := PieceStatus_Default }
  else info

/-- Equality of the piece planes and the color plane: two boards related
by `PlanesEq` have the same piece placement and colors and differ at most
in the status plane `p3`.  Quick-mode move application differs from
full-mode application exactly by such status-plane changes. -/
def PlanesEq (b b' : Board) : Prop :=
  b.p0 = b'.p0 ∧ b.p1 = b'.p1 ∧ b.p2 = b'.p2 ∧ b.p4 = b'.p4

/-- The per-candidate test inside `isUnderAttack`: the probed square holds
an enemy piece on the candidate board. -/
def attackCheck (pos : Position) (color : PieceColor) (enemyMove : Board) : Bool :=
  let infoHere := GetBoardAt enemyMove pos
  infoHere.piece != Piece_Empty && infoHere.color != color

/-! ## Concrete boards used in witnesses and counterexamples -/

/-- Builds a board by a sequence of `SetBoardAt` writes on the zero board,
the way the source's `InitialBoard`/`fillInitialBoardSide` build theirs. -/
def mkBoard (l : List (Position × PieceInfo)) : Board :=
  l.foldl (fun b pi => SetBoardAt b pi.1 pi.2) zeroBoard

/-- Two bare kings, far apart (White to move has three legal moves). -/
def twoKingsBoard : Board :=
  mkBoard [(⟨0, 7⟩, ⟨Piece_King, PieceStatus_CastlingNotAllowed, PieceColor_White⟩),
           (⟨7, 0⟩, ⟨Piece_King, PieceStatus_CastlingNotAllowed, PieceColor_Black⟩)]

/-- White can castle kingside: king e1 and rook h1 untouched, f1/g1 empty,
nothing attacks the king's path.  Used against C4: the quick-mode count
misses the castling board that full mode generates. -/
def c4Board : Board :=
  mkBoard [(⟨4, 7⟩, ⟨Piece_King, PieceStatus_Default, PieceColor_White⟩),
           (⟨7, 7⟩, ⟨Piece_Rock, PieceStatus_Default, PieceColor_White⟩),
           (⟨0, 0⟩, ⟨Piece_King, PieceStatus_CastlingNotAllowed, PieceColor_Black⟩)]

/-- A white king in the corner with a black rook covering the file it can
step onto: with the check filter disabled, the generator emits boards
whose mover's king is attacked. -/
def c2Board : Board :=
  mkBoard [(⟨0, 0⟩, ⟨Piece_King, PieceStatus_CastlingNotAllowed, PieceColor_White⟩),
           (⟨7, 1⟩, ⟨Piece_Rock, PieceStatus_CastlingNotAllowed, PieceColor_Black⟩),
           (⟨7, 7⟩, ⟨Piece_King, PieceStatus_CastlingNotAllowed, PieceColor_Black⟩)]

/-- The illegal result of stepping the c2 king onto the attacked square. -/
def c2Bad : Board := ApplyMove c2Board ⟨⟨0, 0⟩, ⟨0, 1⟩⟩ true

/-- Back-rank mate: the black king on a8 is checked by the rook on a1 and
boxed in by the white king. -/
def mateBoard : Board :=
  mkBoard [(⟨0, 0⟩, ⟨Piece_King, PieceStatus_CastlingNotAllowed, PieceColor_Black⟩),
           (⟨0, 7⟩, ⟨Piece_Rock, PieceStatus_CastlingNotAllowed, PieceColor_White⟩),
           (⟨2, 1⟩, ⟨Piece_King, PieceStatus_CastlingNotAllowed, PieceColor_White⟩)]

/-- Stalemate: the black king on a8 is not in check but every flight
square is covered by the white queen. -/
def staleBoard : Board :=
  mkBoard [(⟨0, 0⟩, ⟨Piece_King, PieceStatus_CastlingNotAllowed, PieceColor_Black⟩),
           (⟨2, 1⟩, ⟨Piece_Queen, PieceStatus_Default, PieceColor_White⟩),
           (⟨5, 5⟩, ⟨Piece_King, PieceStatus_CastlingNotAllowed, PieceColor_White⟩)]

/-- The board on which `Negamax` at depth 3 disagrees with the unpruned,
uncached reference search (3 versus 0): two bare kings, plus three empty
squares near the white king whose color bit is already set the way a
vacating move leaves it (`EmptyPieceInfo` is written with the White color
bit), so that the same position is reachable along move paths of length
one and of length two and the transposition table collides. -/
def c1Board : Board :=
  mkBoard [(⟨0, 7⟩, ⟨Piece_King, PieceStatus_CastlingNotAllowed, PieceColor_White⟩),
           (⟨1, 0⟩, ⟨Piece_King, PieceStatus_CastlingNotAllowed, PieceColor_Black⟩),
           (⟨0, 6⟩, ⟨Piece_Empty, PieceStatus_Default, PieceColor_White⟩),
           (⟨1, 6⟩, ⟨Piece_Empty, PieceStatus_Default, PieceColor_White⟩),
           (⟨1, 7⟩, ⟨Piece_Empty, PieceStatus_Default, PieceColor_White⟩)]

/-- First root move of the white king (to (0,6)), searched first. -/
def c1X1 : Board := ApplyMove c1Board ⟨⟨0, 7⟩, ⟨0, -1⟩⟩ true

/-- Second root move of the white king (to (1,7)). -/
def c1X2 : Board := ApplyMove c1Board ⟨⟨0, 7⟩, ⟨1, 0⟩⟩ true

/-- Black's reply to `c1X1` (king (1,0) to (1,1)). -/
def c1Ymid : Board := ApplyMove c1X1 ⟨⟨1, 0⟩, ⟨0, 1⟩⟩ true

/-- White's follow-up in `c1X1`'s subtree: king (0,6) to (1,7); reached
after three plies, cached by the search with its depth-0 evaluation. -/
def c1Z : Board := ApplyMove c1Ymid ⟨⟨0, 6⟩, ⟨1, 1⟩⟩ true

/-- Black's reply to `c1X2`: the same position as `c1Z`, but reached
after two plies, where the search needs its depth-1 value. -/
def c1Y : Board := ApplyMove c1X2 ⟨⟨1, 0⟩, ⟨0, 1⟩⟩ true

/-- A position with a white pawn ready to double-push, a black pawn that
could then capture it en passant, and the two kings out of the way. -/
def c3Board : Board :=
  mkBoard [(⟨4, 6⟩, ⟨Piece_Pawn, PieceStatus_Default, PieceColor_White⟩),
           (⟨3, 4⟩, ⟨Piece_Pawn, PieceStatus_Default, PieceColor_Black⟩),
           (⟨0, 7⟩, ⟨Piece_King, PieceStatus_CastlingNotAllowed, PieceColor_White⟩),
           (⟨7, 0⟩, ⟨Piece_King, PieceStatus_CastlingNotAllowed, PieceColor_Black⟩)]

/-- After the white double push e2-e4: the pawn on (4,4) carries the
en-passant flag. -/
def c3AfterPush : Board := ApplyMove c3Board ⟨⟨4, 6⟩, ⟨0, -2⟩⟩ true

/-- After black replies with a king move: the claim says the white pawn's
flag is now cleared, but `ApplyMove` only resets the pawns of the side
that just moved (Black), so the flag survives. -/
def c3AfterReply : Board := ApplyMove c3AfterPush ⟨⟨7, 0⟩, ⟨0, 1⟩⟩ true

/-! # Lemmas -/

/-! ## Bit-level facts about the packed board -/

theorem getBit_testBit (bits i : Nat) :
    GetBitValue bits i = if bits.testBit i then 1 else 0 := by
  rw [GetBitValue, Nat.and_one_is_mod, Nat.shiftRight_eq_div_pow, Nat.testBit_to_div_mod]
  rcases Nat.mod_two_eq_zero_or_one (bits / 2 ^ i) with h | h <;> simp [h]

theorem getBit_le_one (bits i : Nat) : GetBitValue bits i ≤ 1 := by
  rw [getBit_testBit]
  split <;> simp

theorem testBit_setBit (bits i v j : Nat) (hv : v ≤ 1) :
    (SetBitValue bits i v).testBit j =
      if i = j then decide (v = 1) else bits.testBit j := by
  have h1 : (1 : Nat) <<< i = 2 ^ i := Nat.one_shiftLeft i
  interval_cases v <;> by_cases h : i = j <;>
    simp [SetBitValue, Nat.testBit_or, Nat.testBit_xor, Nat.testBit_and, h1,
      Nat.testBit_two_pow, Nat.testBit_shiftLeft, h] <;>
    cases bits.testBit j <;> simp

theorem setBit_getBit_same (bits i v : Nat) (hv : v ≤ 1) :
    GetBitValue (SetBitValue bits i v) i = v := by
  rw [getBit_testBit, testBit_setBit bits i v i hv]
  interval_cases v <;> simp

theorem setBit_getBit_other (bits i j v : Nat) (hv : v ≤ 1) (h : i ≠ j) :
    GetBitValue (SetBitValue bits i v) j = GetBitValue bits j := by
  rw [getBit_testBit, getBit_testBit, testBit_setBit bits i v j hv, if_neg h]

theorem setBit_self (bits i : Nat) :
    SetBitValue bits i (GetBitValue bits i) = bits := by
  apply Nat.eq_of_testBit_eq
  intro j
  rw [testBit_setBit bits i _ j (getBit_le_one bits i)]
  split
  · rename_i h
    subst h
    rw [getBit_testBit]
    cases h : bits.testBit i <;> simp
  · rfl

theorem piece_bits_recompose (p : Nat) (hp : p < 8) :
    GetBitValue p 0 ||| (GetBitValue p 1 <<< 1) ||| (GetBitValue p 2 <<< 2) = p := by
  interval_cases p <;> decide

/-! ## Square-level facts about `GetBoardAt` / `SetBoardAt` -/

theorem positionInBoard_iff (pos : Position) :
    PositionInBoard pos = true ↔ 0 ≤ pos.x ∧ pos.x ≤ 7 ∧ 0 ≤ pos.y ∧ pos.y ≤ 7 := by
  rw [PositionInBoard]
  by_cases h : pos.x < 0 ∨ pos.x > 7 ∨ pos.y < 0 ∨ pos.y > 7
  · rw [if_pos h]
    simp only [Bool.false_eq_true, false_iff]
    omega
  · rw [if_neg h]
    simp only [true_iff]
    omega

theorem bitidx_inj {p q : Position} (hp : PositionInBoard p = true)
    (hq : PositionInBoard q = true) (h : p ≠ q) : bitidx p ≠ bitidx q := by
  rw [positionInBoard_iff] at hp hq
  have hpq : p.x ≠ q.x ∨ p.y ≠ q.y := by
    by_contra hc
    push_neg at hc
    exact h (by cases p; cases q; simp_all)
  rw [bitidx, bitidx]
  omega

theorem GetBoardAt_piece_lt8 (board : Board) (pos : Position) :
    (GetBoardAt board pos).piece < 8 := by
  rw [GetBoardAt]
  split
  · show GetBitValue board.p0 (bitidx pos) ||| GetBitValue board.p1 (bitidx pos) <<< 1 |||
      GetBitValue board.p2 (bitidx pos) <<< 2 < 8
    have h0 := getBit_le_one board.p0 (bitidx pos)
    have h1 := getBit_le_one board.p1 (bitidx pos)
    have h2 := getBit_le_one board.p2 (bitidx pos)
    have e8 : (8 : Nat) = 2 ^ 3 := rfl
    rw [e8]
    apply Nat.or_lt_two_pow
    · apply Nat.or_lt_two_pow
      · omega
      · rw [Nat.shiftLeft_eq]
        omega
    · rw [Nat.shiftLeft_eq]
      omega
  · decide

theorem GetBoardAt_SetBoardAt_same (board : Board) (pos : Position) (info : PieceInfo)
    (hpos : PositionInBoard pos = true) (hp : info.piece < 8) :
    GetBoardAt (SetBoardAt board pos info) pos = info := by
  rw [SetBoardAt, if_pos hpos, GetBoardAt]
  simp only [hpos, if_pos]
  have e0 := setBit_getBit_same board.p0 (bitidx pos) (GetBitValue info.piece 0)
    (getBit_le_one _ _)
  have e1 := setBit_getBit_same board.p1 (bitidx pos) (GetBitValue info.piece 1)
    (getBit_le_one _ _)
  have e2 := setBit_getBit_same board.p2 (bitidx pos) (GetBitValue info.piece 2)
    (getBit_le_one _ _)
  have e3 := setBit_getBit_same board.p3 (bitidx pos) (BoolToInt info.status)
    (by rw [BoolToInt]; split <;> simp)
  have e4 := setBit_getBit_same board.p4 (bitidx pos) (BoolToInt info.color)
    (by rw [BoolToInt]; split <;> simp)
  simp only [e0, e1, e2, e3, e4]
  cases info with
  | mk p s c =>
    simp only [PieceInfo.mk.injEq]
    refine ⟨piece_bits_recompose p hp, ?_, ?_⟩ <;> cases s <;> cases c <;>
      simp [BoolToInt] <;> rfl

theorem GetBoardAt_SetBoardAt_other (board : Board) (pos q : Position) (info : PieceInfo)
    (hq : PositionInBoard q = true) (hne : q ≠ pos) :
    GetBoardAt (SetBoardAt board pos info) q = GetBoardAt board q := by
  rw [SetBoardAt]
  split
  · rename_i hpos
    have hidx : bitidx pos ≠ bitidx q := bitidx_inj hpos hq (fun h => hne h.symm)
    rw [GetBoardAt, GetBoardAt]
    simp only [hq, if_pos]
    have o0 := setBit_getBit_other board.p0 (bitidx pos) (bitidx q) (GetBitValue info.piece 0)
      (getBit_le_one _ _) hidx
    have o1 := setBit_getBit_other board.p1 (bitidx pos) (bitidx q) (GetBitValue info.piece 1)
      (getBit_le_one _ _) hidx
    have o2 := setBit_getBit_other board.p2 (bitidx pos) (bitidx q) (GetBitValue info.piece 2)
      (getBit_le_one _ _) hidx
    have o3 := setBit_getBit_other board.p3 (bitidx pos) (bitidx q) (BoolToInt info.status)
      (by rw [BoolToInt]; split <;> simp) hidx
    have o4 := setBit_getBit_other board.p4 (bitidx pos) (bitidx q) (BoolToInt info.color)
      (by rw [BoolToInt]; split <;> simp) hidx
    simp only [o0, o1, o2, o3, o4]
  · rfl

/-! ## Position scans -/

theorem mem_allPositions (p : Position) :
    p ∈ allPositions ↔ PositionInBoard p = true := by
  obtain ⟨a, b⟩ := p
  have hxa : (Position.mk a b).x = a := rfl
  have hyb : (Position.mk a b).y = b := rfl
  rw [allPositions, positionInBoard_iff, hxa, hyb]
  constructor
  · intro h
    rw [List.mem_flatMap] at h
    obtain ⟨x, hx, hmem⟩ := h
    rw [List.mem_map] at hmem
    obtain ⟨y, hy, heq⟩ := hmem
    rw [List.mem_range] at hx hy
    have h1 : (x : Int) = a := congrArg Position.x heq
    have h2 : (y : Int) = b := congrArg Position.y heq
    omega
  · intro h
    rw [List.mem_flatMap]
    refine ⟨a.toNat, by rw [List.mem_range]; omega, ?_⟩
    rw [List.mem_map]
    refine ⟨b.toNat, by rw [List.mem_range]; omega, ?_⟩
    rw [Position.mk.injEq]
    exact ⟨Int.toNat_of_nonneg h.1, Int.toNat_of_nonneg h.2.2.1⟩

theorem mem_GetPieces (board : Board) (piece : Piece) (color : PieceColor) (p : Position) :
    p ∈ GetPieces board piece color ↔
      PositionInBoard p = true ∧ (GetBoardAt board p).piece = piece ∧
        (GetBoardAt board p).color = color := by
  rw [GetPieces]
  simp only [List.mem_filter, mem_allPositions, Bool.and_eq_true, beq_iff_eq]
  constructor
  · rintro ⟨h1, h2, h3⟩
    exact ⟨h1, h2.symm, h3.symm⟩
  · rintro ⟨h1, h2, h3⟩
    exact ⟨h1, h2.symm, h3.symm⟩

theorem mem_GetPiecesByColor (board : Board) (color : PieceColor) (p : Position) :
    p ∈ GetPiecesByColor board color ↔
      PositionInBoard p = true ∧ (GetBoardAt board p).color = color ∧
        (GetBoardAt board p).piece ≠ Piece_Empty := by
  rw [GetPiecesByColor]
  simp only [List.mem_filter, mem_allPositions, Bool.and_eq_true, beq_iff_eq, bne_iff_ne,
    ne_eq]
  constructor
  · rintro ⟨h1, h2, h3⟩
    exact ⟨h1, h2.symm, h3⟩
  · rintro ⟨h1, h2, h3⟩
    exact ⟨h1, h2.symm, h3⟩

/-! ## The pawn-status reset and simple move application -/

theorem getBoardAt_foldl_reset (L : List Position) (board : Board) (q : Position)
    (hL : ∀ r ∈ L, PositionInBoard r = true) (hq : PositionInBoard q = true) :
    GetBoardAt (L.foldl (fun b pos =>
        let info := GetBoardAt b pos
        SetBoardAt b pos ⟨info.piece, PieceStatus_Default, info.color⟩) board) q =
      if q ∈ L then
        ⟨(GetBoardAt board q).piece, PieceStatus_Default, (GetBoardAt board q).color⟩
      else GetBoardAt board q := by
  induction L generalizing board with
  | nil => simp
  | cons r rest ih =>
    have hr : PositionInBoard r = true := hL r (List.mem_cons_self r rest)
    have hrest : ∀ s ∈ rest, PositionInBoard s = true :=
      fun s hs => hL s (List.mem_cons_of_mem r hs)
    simp only [List.foldl_cons]
    set board1 := SetBoardAt board r
      ⟨(GetBoardAt board r).piece, PieceStatus_Default, (GetBoardAt board r).color⟩ with hb1
    have hA : GetBoardAt board1 r =
        ⟨(GetBoardAt board r).piece, PieceStatus_Default, (GetBoardAt board r).color⟩ := by
      rw [hb1]
      exact GetBoardAt_SetBoardAt_same board r _ hr (GetBoardAt_piece_lt8 board r)
    have hB : ∀ s : Position, PositionInBoard s = true → s ≠ r →
        GetBoardAt board1 s = GetBoardAt board s := by
      intro s hs hsr
      rw [hb1]
      exact GetBoardAt_SetBoardAt_other board r s _ hs hsr
    rw [ih board1 hrest]
    by_cases hqr : q = r
    · subst hqr
      by_cases hqrest : q ∈ rest
      · rw [if_pos hqrest, if_pos (List.mem_cons_self q rest), hA]
      · rw [if_neg hqrest, if_pos (List.mem_cons_self q rest), hA]
    · by_cases hqrest : q ∈ rest
      · rw [if_pos hqrest, if_pos (List.mem_cons_of_mem r hqrest), hB q hq hqr]
      · rw [if_neg hqrest, if_neg (by simp [hqr, hqrest]), hB q hq hqr]

theorem GetBoardAt_resetPawnsStatus (board : Board) (color : PieceColor) (q : Position)
    (hq : PositionInBoard q = true) :
    GetBoardAt (resetPawnsStatus board color) q =
      if (GetBoardAt board q).piece = Piece_Pawn ∧ (GetBoardAt board q).color = color then
        ⟨Piece_Pawn, PieceStatus_Default, color⟩
      else GetBoardAt board q := by
  rw [resetPawnsStatus,
    getBoardAt_foldl_reset (GetPieces board Piece_Pawn color) board q
      (fun r hr => ((mem_GetPieces board Piece_Pawn color r).mp hr).1) hq]
  by_cases hmem : q ∈ GetPieces board Piece_Pawn color
  · obtain ⟨-, h2, h3⟩ := (mem_GetPieces board Piece_Pawn color q).mp hmem
    rw [if_pos hmem, if_pos ⟨h2, h3⟩, h2, h3]
  · rw [if_neg hmem]
    by_cases hcond : (GetBoardAt board q).piece = Piece_Pawn ∧ (GetBoardAt board q).color = color
    · exact absurd ((mem_GetPieces board Piece_Pawn color q).mpr ⟨hq, hcond.1, hcond.2⟩) hmem
    · rw [if_neg hcond]

theorem ApplyMove_true_eq (board : Board) (fm : FullMove) :
    ApplyMove board fm true =
      SetBoardAt
        (SetBoardAt (resetPawnsStatus board (GetBoardAt board fm.pos).color)
          fm.pos EmptyPieceInfo)
        (PositionAdd fm.pos fm.move)
        (applyMoveInfo (GetBoardAt board fm.pos) fm.move) := rfl

theorem ApplyMove_false_eq (board : Board) (fm : FullMove) :
    ApplyMove board fm false =
      SetBoardAt (SetBoardAt board fm.pos EmptyPieceInfo)
        (PositionAdd fm.pos fm.move) (GetBoardAt board fm.pos) := rfl

theorem applyMoveInfo_piece (info : PieceInfo) (move : Move) :
    (applyMoveInfo info move).piece = info.piece := by
  rw [applyMoveInfo]
  split <;> split <;> split <;> rfl

theorem applyMoveInfo_color (info : PieceInfo) (move : Move) :
    (applyMoveInfo info move).color = info.color := by
  rw [applyMoveInfo]
  split <;> split <;> split <;> rfl

theorem applyMoveInfo_pawn_double (info : PieceInfo) (move : Move)
    (hp : info.piece = Piece_Pawn) (hm : move.y.natAbs = 2) :
    applyMoveInfo info move = ⟨Piece_Pawn, PieceStatus_EnPassantAllowed, info.color⟩ := by
  obtain ⟨p, s, c⟩ := info
  simp only at hp
  subst hp
  simp [applyMoveInfo, hm, Piece_Pawn, Piece_King, Piece_Rock, PieceStatus_EnPassantAllowed]

theorem applyMoveInfo_king (info : PieceInfo) (move : Move)
    (hp : info.piece = Piece_King) :
    applyMoveInfo info move = ⟨Piece_King, PieceStatus_CastlingNotAllowed, info.color⟩ := by
  obtain ⟨p, s, c⟩ := info
  simp only at hp
  subst hp
  simp [applyMoveInfo, Piece_Pawn, Piece_King, Piece_Rock, PieceStatus_CastlingNotAllowed]

theorem applyMoveInfo_rock (info : PieceInfo) (move : Move)
    (hp : info.piece = Piece_Rock) :
    applyMoveInfo info move = ⟨Piece_Rock, PieceStatus_CastlingNotAllowed, info.color⟩ := by
  obtain ⟨p, s, c⟩ := info
  simp only at hp
  subst hp
  simp [applyMoveInfo, Piece_Pawn, Piece_King, Piece_Rock, PieceStatus_CastlingNotAllowed]

theorem GetBoardAt_ApplyMove_true_target (board : Board) (fm : FullMove)
    (ht : PositionInBoard (PositionAdd fm.pos fm.move) = true) :
    GetBoardAt (ApplyMove board fm true) (PositionAdd fm.pos fm.move) =
      applyMoveInfo (GetBoardAt board fm.pos) fm.move := by
  rw [ApplyMove_true_eq]
  exact GetBoardAt_SetBoardAt_same _ _ _ ht
    (by rw [applyMoveInfo_piece]; exact GetBoardAt_piece_lt8 board fm.pos)

theorem GetBoardAt_ApplyMove_true_origin (board : Board) (fm : FullMove)
    (hp : PositionInBoard fm.pos = true)
    (hne : fm.pos ≠ PositionAdd fm.pos fm.move) :
    GetBoardAt (ApplyMove board fm true) fm.pos = EmptyPieceInfo := by
  rw [ApplyMove_true_eq,
    GetBoardAt_SetBoardAt_other _ _ _ _ hp hne,
    GetBoardAt_SetBoardAt_same _ _ _ hp (by decide)]

theorem GetBoardAt_ApplyMove_true_other (board : Board) (fm : FullMove) (q : Position)
    (hq : PositionInBoard q = true) (h1 : q ≠ fm.pos)
    (h2 : q ≠ PositionAdd fm.pos fm.move) :
    GetBoardAt (ApplyMove board fm true) q =
      GetBoardAt (resetPawnsStatus board (GetBoardAt board fm.pos).color) q := by
  rw [ApplyMove_true_eq,
    GetBoardAt_SetBoardAt_other _ _ _ _ hq h2,
    GetBoardAt_SetBoardAt_other _ _ _ _ hq h1]

/-! ## Fold and filter bridges -/

theorem foldl_add_eq_sum {α : Type} (f : α → Int) (l : List α) (acc : Int) :
    l.foldl (fun s x => s + f x) acc = acc + (l.map f).sum := by
  induction l generalizing acc with
  | nil => simp
  | cons x rest ih =>
    rw [List.foldl_cons, ih (acc + f x), List.map_cons, List.sum_cons]
    omega

theorem foldl_add_length_eq (f : Position → List Board) (l : List Position) (acc : Int) :
    l.foldl (fun (c : Int) pos => c + ((f pos).length : Int)) acc =
      acc + ((l.flatMap f).length : Int) := by
  induction l generalizing acc with
  | nil => simp
  | cons x rest ih =>
    rw [List.foldl_cons, ih (acc + (f x).length), List.flatMap_cons, List.length_append]
    push_cast
    omega

theorem getPiecesScore_eq_sum (board : Board) (color : PieceColor) :
    getPiecesScore board color =
      ((GetPiecesByColor board color).map fun pos =>
        pieceScoreMap (GetBoardAt board pos).piece).sum := by
  rw [getPiecesScore, foldl_add_eq_sum]
  exact zero_add _

theorem mem_removeCheckMoves {boards : List Board} {color : PieceColor} {b : Board}
    (hb : b ∈ removeCheckMoves boards color) (kpos : Position) (rest : List Position)
    (hk : GetPieces b Piece_King color = kpos :: rest) :
    isUnderAttack b kpos color = false := by
  rw [removeCheckMoves, List.mem_filter] at hb
  have hp := hb.2
  rw [hk] at hp
  simpa using hp

theorem GetPossibleMoves_filter_eq (board : Board) (pos : Position) (info : PieceInfo)
    (quickMode : Bool) :
    GetPossibleMoves board pos info true quickMode =
      removeCheckMoves (GetPossibleMoves board pos info false quickMode) info.color := rfl

/-! ## Pawn special-move generation -/

theorem subset_addPawnMove (board : Board) (info : PieceInfo) (mv : FullMove)
    (isEnPassant : Bool) (moves : List Board) :
    moves ⊆ addPawnMove board info mv isEnPassant moves := by
  rw [addPawnMove]
  split <;> exact List.subset_append_left _ _

theorem subset_pawnSpecialStep (board : Board) (pos : Position) (info : PieceInfo)
    (yDir : Int) (l : List Board) (xDir : Int) :
    l ⊆ pawnSpecialStep board pos info yDir l xDir := by
  rw [pawnSpecialStep]
  split
  · exact fun a ha => ha
  · dsimp only
    split
    · split
      · exact subset_addPawnMove _ _ _ _ _
      · exact fun a ha => ha
    · split
      · exact List.subset_append_left _ _
      · exact fun a ha => ha

theorem pawnSpecialStep_enPassant (board : Board) (pos : Position) (info : PieceInfo)
    (yDir : Int) (l : List Board) (dx : Int)
    (hx0 : 0 ≤ pos.x + dx) (hx7 : pos.x + dx ≤ 7)
    (hy0 : pos.y + yDir ≠ 0) (hy7 : pos.y + yDir ≠ 7)
    (hdiag : (GetBoardAt board ⟨pos.x + dx, pos.y + yDir⟩).piece = Piece_Empty)
    (hvcol : (GetBoardAt board ⟨pos.x + dx, pos.y⟩).color ≠ info.color)
    (hvp : (GetBoardAt board ⟨pos.x + dx, pos.y⟩).piece = Piece_Pawn)
    (hvs : (GetBoardAt board ⟨pos.x + dx, pos.y⟩).status = PieceStatus_EnPassantAllowed) :
    pawnSpecialStep board pos info yDir l dx =
      l ++ [ApplyEnPassant board ⟨pos, ⟨dx, yDir⟩⟩ true] := by
  rw [pawnSpecialStep]
  rw [if_neg (by omega)]
  simp only [hdiag]
  rw [if_neg (by simp [Piece_Empty])]
  rw [if_pos ⟨hvcol, hvp, hvs⟩]
  rw [addPawnMove]
  have hnp : PositionAdd (⟨pos, ⟨dx, yDir⟩⟩ : FullMove).pos (⟨pos, ⟨dx, yDir⟩⟩ : FullMove).move =
      ⟨pos.x + dx, pos.y + yDir⟩ := rfl
  rw [hnp]
  rw [if_pos ⟨hy0, hy7⟩]
  simp

/-! ## Castling -/

theorem positionInBoard_mk (a b : Int) (h1 : 0 ≤ a) (h2 : a ≤ 7) (h3 : 0 ≤ b)
    (h4 : b ≤ 7) : PositionInBoard ⟨a, b⟩ = true := by
  rw [positionInBoard_iff]
  exact ⟨h1, h2, h3, h4⟩

theorem position_ne_of_x {a b c d : Int} (h : a ≠ c) : (⟨a, b⟩ : Position) ≠ ⟨c, d⟩ := by
  intro he
  exact h (congrArg Position.x he)

theorem positionAdd_mk (a b m : Int) : PositionAdd ⟨a, b⟩ ⟨m, 0⟩ = ⟨a + m, b⟩ := by
  rw [PositionAdd]
  congr 1
  exact add_zero b

theorem resetPawns_nonpawn (board : Board) (color : PieceColor) (q : Position)
    (hq : PositionInBoard q = true) (h : (GetBoardAt board q).piece ≠ Piece_Pawn) :
    GetBoardAt (resetPawnsStatus board color) q = GetBoardAt board q := by
  rw [GetBoardAt_resetPawnsStatus board color q hq, if_neg]
  rintro ⟨h1, -⟩
  exact h h1

theorem castlingEmptyPath_eq_true (board : Board) (y : Int) (l : List Int) :
    castlingEmptyPath board y l = true ↔
      ∀ x ∈ l, (GetBoardAt board ⟨x, y⟩).piece = Piece_Empty := by
  induction l with
  | nil => simp [castlingEmptyPath]
  | cons x rest ih =>
    rw [castlingEmptyPath]
    by_cases h : (GetBoardAt board ⟨x, y⟩).piece = Piece_Empty
    · rw [if_pos h, ih]
      simp [h]
    · rw [if_neg h]
      simp [h]

theorem castlingAttackPath_eq_true (board : Board) (y : Int) (color : PieceColor)
    (l : List Int) :
    castlingAttackPath board y color l = true ↔
      ∀ x ∈ l, isUnderAttack board ⟨x, y⟩ color = false := by
  induction l with
  | nil => simp [castlingAttackPath]
  | cons x rest ih =>
    rw [castlingAttackPath]
    by_cases h : isUnderAttack board ⟨x, y⟩ color = true
    · rw [if_pos h]
      simp [h]
    · rw [Bool.not_eq_true] at h
      rw [if_neg (by rw [h]; exact Bool.false_ne_true), ih]
      simp [h]

theorem castlingChainReads (board : Board) (y rx tx kt mx kx : Int)
    (kingInfo : PieceInfo)
    (hy0 : 0 ≤ y) (hy7 : y ≤ 7)
    (hrx0 : 0 ≤ rx) (hrx7 : rx ≤ 7) (htx0 : 0 ≤ tx) (htx7 : tx ≤ 7)
    (hkt0 : 0 ≤ kt) (hkt7 : kt ≤ 7)
    (hmx : rx + mx = tx) (hkx : 4 + kx = kt)
    (hkp : kingInfo.piece = Piece_King)
    (hne1 : rx ≠ 4) (hne2 : tx ≠ 4) (hne3 : tx ≠ rx)
    (hne4 : kt ≠ 4) (hne5 : kt ≠ rx) (hne6 : kt ≠ tx) :
    GetBoardAt
      (ApplyMove
        (ApplyMove
          (SetBoardAt
            (SetBoardAt board ⟨rx, y⟩
              ⟨Piece_Rock, PieceStatus_CastlingNotAllowed, kingInfo.color⟩)
            ⟨4, y⟩ ⟨kingInfo.piece, PieceStatus_CastlingNotAllowed, kingInfo.color⟩)
          ⟨⟨rx, y⟩, ⟨mx, 0⟩⟩ true)
        ⟨⟨4, y⟩, ⟨kx, 0⟩⟩ true)
      ⟨kt, y⟩ = ⟨Piece_King, PieceStatus_CastlingNotAllowed, kingInfo.color⟩ ∧
    GetBoardAt
      (ApplyMove
        (ApplyMove
          (SetBoardAt
            (SetBoardAt board ⟨rx, y⟩
              ⟨Piece_Rock, PieceStatus_CastlingNotAllowed, kingInfo.color⟩)
            ⟨4, y⟩ ⟨kingInfo.piece, PieceStatus_CastlingNotAllowed, kingInfo.color⟩)
          ⟨⟨rx, y⟩, ⟨mx, 0⟩⟩ true)
        ⟨⟨4, y⟩, ⟨kx, 0⟩⟩ true)
      ⟨tx, y⟩ = ⟨Piece_Rock, PieceStatus_CastlingNotAllowed, kingInfo.color⟩ := by
  have hin4 : PositionInBoard (⟨4, y⟩ : Position) = true :=
    positionInBoard_mk 4 y (by norm_num) (by norm_num) hy0 hy7
  have hinr : PositionInBoard (⟨rx, y⟩ : Position) = true :=
    positionInBoard_mk rx y hrx0 hrx7 hy0 hy7
  have hint : PositionInBoard (⟨tx, y⟩ : Position) = true :=
    positionInBoard_mk tx y htx0 htx7 hy0 hy7
  have hink : PositionInBoard (⟨kt, y⟩ : Position) = true :=
    positionInBoard_mk kt y hkt0 hkt7 hy0 hy7
  set b1 := SetBoardAt board ⟨rx, y⟩
    ⟨Piece_Rock, PieceStatus_CastlingNotAllowed, kingInfo.color⟩ with hb1
  set b2 := SetBoardAt b1 ⟨4, y⟩
    ⟨kingInfo.piece, PieceStatus_CastlingNotAllowed, kingInfo.color⟩ with hb2
  have hPr : PositionAdd (⟨⟨rx, y⟩, ⟨mx, 0⟩⟩ : FullMove).pos
      (⟨⟨rx, y⟩, ⟨mx, 0⟩⟩ : FullMove).move = ⟨tx, y⟩ := by
    rw [show (⟨⟨rx, y⟩, ⟨mx, 0⟩⟩ : FullMove).pos = ⟨rx, y⟩ from rfl,
      show (⟨⟨rx, y⟩, ⟨mx, 0⟩⟩ : FullMove).move = ⟨mx, 0⟩ from rfl,
      positionAdd_mk, hmx]
  have hPk : PositionAdd (⟨⟨4, y⟩, ⟨kx, 0⟩⟩ : FullMove).pos
      (⟨⟨4, y⟩, ⟨kx, 0⟩⟩ : FullMove).move = ⟨kt, y⟩ := by
    rw [show (⟨⟨4, y⟩, ⟨kx, 0⟩⟩ : FullMove).pos = ⟨4, y⟩ from rfl,
      show (⟨⟨4, y⟩, ⟨kx, 0⟩⟩ : FullMove).move = ⟨kx, 0⟩ from rfl,
      positionAdd_mk, hkx]
  have hb2r : GetBoardAt b2 ⟨rx, y⟩ =
      ⟨Piece_Rock, PieceStatus_CastlingNotAllowed, kingInfo.color⟩ := by
    rw [hb2, GetBoardAt_SetBoardAt_other _ _ _ _ hinr (position_ne_of_x hne1), hb1,
      GetBoardAt_SetBoardAt_same _ _ _ hinr (by rw [Piece_Rock]; norm_num)]
  have hb24 : GetBoardAt b2 ⟨4, y⟩ =
      ⟨kingInfo.piece, PieceStatus_CastlingNotAllowed, kingInfo.color⟩ := by
    rw [hb2, GetBoardAt_SetBoardAt_same _ _ _ hin4
      (by rw [hkp, Piece_King]; norm_num)]
  set b3 := ApplyMove b2 ⟨⟨rx, y⟩, ⟨mx, 0⟩⟩ true with hb3
  have hb3t : GetBoardAt b3 ⟨tx, y⟩ =
      ⟨Piece_Rock, PieceStatus_CastlingNotAllowed, kingInfo.color⟩ := by
    rw [hb3, ← hPr, GetBoardAt_ApplyMove_true_target _ _ (by rw [hPr]; exact hint)]
    rw [show (⟨⟨rx, y⟩, ⟨mx, 0⟩⟩ : FullMove).pos = ⟨rx, y⟩ from rfl, hb2r,
      applyMoveInfo_rock _ _ rfl]
  have hq1 : (⟨4, y⟩ : Position) ≠ (⟨⟨rx, y⟩, ⟨mx, 0⟩⟩ : FullMove).pos :=
    position_ne_of_x (fun h => hne1 h.symm)
  have hq2 : (⟨4, y⟩ : Position) ≠
      PositionAdd (⟨⟨rx, y⟩, ⟨mx, 0⟩⟩ : FullMove).pos
        (⟨⟨rx, y⟩, ⟨mx, 0⟩⟩ : FullMove).move := by
    rw [hPr]
    exact position_ne_of_x (fun h => hne2 h.symm)
  have hb34 : GetBoardAt b3 ⟨4, y⟩ =
      ⟨kingInfo.piece, PieceStatus_CastlingNotAllowed, kingInfo.color⟩ := by
    rw [hb3, GetBoardAt_ApplyMove_true_other _ _ _ hin4 hq1 hq2]
    have hpn : (GetBoardAt b2 ⟨4, y⟩).piece ≠ Piece_Pawn := by
      rw [hb24]
      show kingInfo.piece ≠ Piece_Pawn
      rw [hkp]
      decide
    rw [resetPawns_nonpawn _ _ _ hin4 hpn, hb24]
  set b4 := ApplyMove b3 ⟨⟨4, y⟩, ⟨kx, 0⟩⟩ true with hb4
  constructor
  · rw [hb4, ← hPk, GetBoardAt_ApplyMove_true_target _ _ (by rw [hPk]; exact hink)]
    rw [hb34, applyMoveInfo_king _ _ (by rw [hkp]), hkp]
  · have hq3 : (⟨tx, y⟩ : Position) ≠ (⟨⟨4, y⟩, ⟨kx, 0⟩⟩ : FullMove).pos :=
      position_ne_of_x hne2
    have hq4 : (⟨tx, y⟩ : Position) ≠
        PositionAdd (⟨⟨4, y⟩, ⟨kx, 0⟩⟩ : FullMove).pos
          (⟨⟨4, y⟩, ⟨kx, 0⟩⟩ : FullMove).move := by
      rw [hPk]
      exact position_ne_of_x (fun h => hne6 h.symm)
    rw [hb4, GetBoardAt_ApplyMove_true_other _ _ _ hint hq3 hq4]
    have hpn : (GetBoardAt b3 ⟨tx, y⟩).piece ≠ Piece_Pawn := by
      rw [hb3t]
      show Piece_Rock ≠ Piece_Pawn
      decide
    rw [resetPawns_nonpawn _ _ _ hint hpn, hb3t]

/-! ## Status-plane invariance: basic facts -/

theorem planesEq_refl (b : Board) : PlanesEq b b := ⟨rfl, rfl, rfl, rfl⟩

theorem planesEq_symm {b b' : Board} (h : PlanesEq b b') : PlanesEq b' b :=
  ⟨h.1.symm, h.2.1.symm, h.2.2.1.symm, h.2.2.2.symm⟩

theorem planesEq_trans {a b c : Board} (h1 : PlanesEq a b) (h2 : PlanesEq b c) :
    PlanesEq a c :=
  ⟨h1.1.trans h2.1, h1.2.1.trans h2.2.1, h1.2.2.1.trans h2.2.2.1,
   h1.2.2.2.trans h2.2.2.2⟩

theorem GetBoardAt_piece_planesEq {b b' : Board} (h : PlanesEq b b') (p : Position) :
    (GetBoardAt b p).piece = (GetBoardAt b' p).piece := by
  rw [GetBoardAt, GetBoardAt, h.1, h.2.1, h.2.2.1]
  split_ifs <;> rfl

theorem GetBoardAt_color_planesEq {b b' : Board} (h : PlanesEq b b') (p : Position) :
    (GetBoardAt b p).color = (GetBoardAt b' p).color := by
  rw [GetBoardAt, GetBoardAt, h.2.2.2]
  split_ifs <;> rfl

theorem GetPieces_planesEq {b b' : Board} (h : PlanesEq b b') (piece : Piece)
    (color : PieceColor) : GetPieces b piece color = GetPieces b' piece color := by
  rw [GetPieces, GetPieces]
  apply List.filter_congr
  intro p _
  show (piece == (GetBoardAt b p).piece && color == (GetBoardAt b p).color) =
    (piece == (GetBoardAt b' p).piece && color == (GetBoardAt b' p).color)
  rw [GetBoardAt_piece_planesEq h p, GetBoardAt_color_planesEq h p]

theorem GetPiecesByColor_planesEq {b b' : Board} (h : PlanesEq b b')
    (color : PieceColor) : GetPiecesByColor b color = GetPiecesByColor b' color := by
  rw [GetPiecesByColor, GetPiecesByColor]
  apply List.filter_congr
  intro p _
  show (color == (GetBoardAt b p).color && (GetBoardAt b p).piece != Piece_Empty) =
    (color == (GetBoardAt b' p).color && (GetBoardAt b' p).piece != Piece_Empty)
  rw [GetBoardAt_piece_planesEq h p, GetBoardAt_color_planesEq h p]

theorem attackCheck_planesEq {b b' : Board} (h : PlanesEq b b') (pos : Position)
    (color : PieceColor) : attackCheck pos color b = attackCheck pos color b' := by
  show ((GetBoardAt b pos).piece != Piece_Empty && (GetBoardAt b pos).color != color) =
    ((GetBoardAt b' pos).piece != Piece_Empty && (GetBoardAt b' pos).color != color)
  rw [GetBoardAt_piece_planesEq h pos, GetBoardAt_color_planesEq h pos]

theorem getBit_recompose (a b2 c : Nat) (ha : a ≤ 1) (hb : b2 ≤ 1) (hc : c ≤ 1) :
    GetBitValue (a ||| (b2 <<< 1) ||| (c <<< 2)) 0 = a ∧
    GetBitValue (a ||| (b2 <<< 1) ||| (c <<< 2)) 1 = b2 ∧
    GetBitValue (a ||| (b2 <<< 1) ||| (c <<< 2)) 2 = c := by
  interval_cases a <;> interval_cases b2 <;> interval_cases c <;> exact ⟨rfl, rfl, rfl⟩

theorem SetBoardAt_statusWrite_planesEq (b : Board) (p : Position) (s : PieceStatus) :
    PlanesEq (SetBoardAt b p ⟨(GetBoardAt b p).piece, s, (GetBoardAt b p).color⟩) b := by
  by_cases hp : PositionInBoard p = true
  · have hpi : (GetBoardAt b p).piece =
        GetBitValue b.p0 (bitidx p) ||| (GetBitValue b.p1 (bitidx p) <<< 1) |||
          (GetBitValue b.p2 (bitidx p) <<< 2) := by
      rw [GetBoardAt, if_pos hp]
    have hco : (GetBoardAt b p).color = (1 == GetBitValue b.p4 (bitidx p)) := by
      rw [GetBoardAt, if_pos hp]
    obtain ⟨e0, e1, e2⟩ := getBit_recompose (GetBitValue b.p0 (bitidx p))
      (GetBitValue b.p1 (bitidx p)) (GetBitValue b.p2 (bitidx p))
      (getBit_le_one _ _) (getBit_le_one _ _) (getBit_le_one _ _)
    have hb4 : BoolToInt (1 == GetBitValue b.p4 (bitidx p)) =
        GetBitValue b.p4 (bitidx p) := by
      rcases Nat.le_one_iff_eq_zero_or_eq_one.mp (getBit_le_one b.p4 (bitidx p)) with
        h | h <;> rw [h] <;> rfl
    rw [SetBoardAt, if_pos hp]
    refine ⟨?_, ?_, ?_, ?_⟩
    · show SetBitValue b.p0 (bitidx p) (GetBitValue (GetBoardAt b p).piece 0) = b.p0
      rw [hpi, e0, setBit_self]
    · show SetBitValue b.p1 (bitidx p) (GetBitValue (GetBoardAt b p).piece 1) = b.p1
      rw [hpi, e1, setBit_self]
    · show SetBitValue b.p2 (bitidx p) (GetBitValue (GetBoardAt b p).piece 2) = b.p2
      rw [hpi, e2, setBit_self]
    · show SetBitValue b.p4 (bitidx p) (BoolToInt (GetBoardAt b p).color) = b.p4
      rw [hco, hb4, setBit_self]
  · rw [SetBoardAt, if_neg hp]
    exact planesEq_refl b

theorem SetBoardAt_planesEq_congr {b b' : Board} (h : PlanesEq b b') (p : Position)
    {i i' : PieceInfo} (hpiece : i.piece = i'.piece) (hcolor : i.color = i'.color) :
    PlanesEq (SetBoardAt b p i) (SetBoardAt b' p i') := by
  by_cases hp : PositionInBoard p = true
  · rw [SetBoardAt, SetBoardAt, if_pos hp, if_pos hp]
    refine ⟨?_, ?_, ?_, ?_⟩
    · show SetBitValue b.p0 (bitidx p) (GetBitValue i.piece 0) =
        SetBitValue b'.p0 (bitidx p) (GetBitValue i'.piece 0)
      rw [h.1, hpiece]
    · show SetBitValue b.p1 (bitidx p) (GetBitValue i.piece 1) =
        SetBitValue b'.p1 (bitidx p) (GetBitValue i'.piece 1)
      rw [h.2.1, hpiece]
    · show SetBitValue b.p2 (bitidx p) (GetBitValue i.piece 2) =
        SetBitValue b'.p2 (bitidx p) (GetBitValue i'.piece 2)
      rw [h.2.2.1, hpiece]
    · show SetBitValue b.p4 (bitidx p) (BoolToInt i.color) =
        SetBitValue b'.p4 (bitidx p) (BoolToInt i'.color)
      rw [h.2.2.2, hcolor]
  · rw [SetBoardAt, SetBoardAt, if_neg hp, if_neg hp]
    exact h

theorem forall_mem_pair {p : Int → Prop} {a b : Int} :
    (∀ x ∈ [a, b], p x) ↔ p a ∧ p b := by
  simp

theorem forall_mem_triple {p : Int → Prop} {a b c : Int} :
    (∀ x ∈ [a, b, c], p x) ↔ p a ∧ p b ∧ p c := by
  simp

theorem addCastlingMove_ok (board : Board) (kingPos : Position) (kingInfo : PieceInfo)
    (dir : Int) (h : (addCastlingMove board kingPos kingInfo dir).2 = true) :
    addCastlingMove board kingPos kingInfo dir =
      (ApplyCastling board kingPos kingInfo dir, true) := by
  rw [addCastlingMove] at h ⊢
  split_ifs at h ⊢ <;> first
    | rfl
    | (exfalso; exact Bool.false_ne_true h)

/-! ## Status-plane invariance of move application -/

theorem resetPawns_planesEq (b : Board) (c : PieceColor) :
    PlanesEq (resetPawnsStatus b c) b := by
  rw [resetPawnsStatus]
  generalize GetPieces b Piece_Pawn c = l
  induction l generalizing b with
  | nil => exact planesEq_refl b
  | cons p t ih =>
    rw [List.foldl_cons]
    exact planesEq_trans (ih _)
      (SetBoardAt_statusWrite_planesEq b p PieceStatus_Default)

theorem ApplyMove_eq_general (board : Board) (fm : FullMove) (u : Bool) :
    ApplyMove board fm u =
      SetBoardAt
        (SetBoardAt
          (if u then resetPawnsStatus board (GetBoardAt board fm.pos).color else board)
          fm.pos EmptyPieceInfo)
        (PositionAdd fm.pos fm.move)
        (if u then applyMoveInfo (GetBoardAt board fm.pos) fm.move
         else GetBoardAt board fm.pos) := by
  cases u
  · exact ApplyMove_false_eq board fm
  · exact ApplyMove_true_eq board fm

theorem ApplyMove_planesEq {b b' : Board} (h : PlanesEq b b') (fm : FullMove)
    (u u' : Bool) : PlanesEq (ApplyMove b fm u) (ApplyMove b' fm u') := by
  have hpc := GetBoardAt_piece_planesEq h fm.pos
  have hcc := GetBoardAt_color_planesEq h fm.pos
  rw [ApplyMove_eq_general, ApplyMove_eq_general]
  refine SetBoardAt_planesEq_congr (SetBoardAt_planesEq_congr ?_ fm.pos rfl rfl)
    (PositionAdd fm.pos fm.move) ?_ ?_
  · cases u <;> cases u'
    · exact h
    · exact planesEq_trans h (planesEq_symm (resetPawns_planesEq b' _))
    · exact planesEq_trans (resetPawns_planesEq b _) h
    · exact planesEq_trans (resetPawns_planesEq b _)
        (planesEq_trans h (planesEq_symm (resetPawns_planesEq b' _)))
  · cases u <;> cases u' <;> simp [applyMoveInfo_piece, hpc]
  · cases u <;> cases u' <;> simp [applyMoveInfo_color, hcc]

theorem walkSeq_planesEq {b b' : Board} (h : PlanesEq b b') (p0 : Position)
    {info info' : PieceInfo} (hpi : info.piece = info'.piece)
    (hci : info.color = info'.color) :
    ∀ s : MoveSeq, walkSeq b p0 info s = walkSeq b' p0 info' s := by
  intro s
  induction s with
  | nil => rfl
  | cons m rest ih =>
    simp only [walkSeq]
    rw [GetBoardAt_piece_planesEq h (PositionAdd p0 m),
        GetBoardAt_color_planesEq h (PositionAdd p0 m), hpi, hci, ih]

theorem forall₂_map_of_rel {α β : Type} {R : β → β → Prop} (f g : α → β) :
    ∀ l : List α, (∀ a ∈ l, R (f a) (g a)) → List.Forall₂ R (l.map f) (l.map g) := by
  intro l hl
  induction l with
  | nil => exact List.Forall₂.nil
  | cons x t ih =>
    exact List.Forall₂.cons (hl x (List.mem_cons_self x t))
      (ih fun a ha => hl a (List.mem_cons_of_mem x ha))

theorem forall₂_planesEq_self (l : List Board) : List.Forall₂ PlanesEq l l := by
  induction l with
  | nil => exact List.Forall₂.nil
  | cons x t ih => exact List.Forall₂.cons (planesEq_refl x) ih

theorem forall₂_append_planes {l1 l2 t1 t2 : List Board}
    (h1 : List.Forall₂ PlanesEq l1 l2) (h2 : List.Forall₂ PlanesEq t1 t2) :
    List.Forall₂ PlanesEq (l1 ++ t1) (l2 ++ t2) := by
  induction h1 with
  | nil => exact h2
  | cons hr htail ih => exact List.Forall₂.cons hr ih

theorem forall₂_mem_left {l l' : List Board}
    (hf : List.Forall₂ PlanesEq l l') {m : Board} (hm : m ∈ l) :
    ∃ m2 ∈ l', PlanesEq m m2 := by
  induction hf with
  | nil => exact (List.not_mem_nil m hm).elim
  | cons hr htail ih =>
    rcases List.mem_cons.mp hm with rfl | hm2
    · exact ⟨_, List.mem_cons_self _ _, hr⟩
    · obtain ⟨m2, hmem, hpe⟩ := ih hm2
      exact ⟨m2, List.mem_cons_of_mem _ hmem, hpe⟩

theorem forall₂_any_attackCheck {l l' : List Board}
    (hf : List.Forall₂ PlanesEq l l') (pos : Position) (color : PieceColor) :
    l.any (attackCheck pos color) = l'.any (attackCheck pos color) := by
  induction hf with
  | nil => rfl
  | cons hr htail ih =>
    rw [List.any_cons, List.any_cons, attackCheck_planesEq hr pos color, ih]

theorem list_any_congr {α : Type} {f g : α → Bool} :
    ∀ l : List α, (∀ a ∈ l, f a = g a) → l.any f = l.any g := by
  intro l hl
  induction l with
  | nil => rfl
  | cons x t ih =>
    rw [List.any_cons, List.any_cons, hl x (List.mem_cons_self x t),
        ih fun a ha => hl a (List.mem_cons_of_mem x ha)]

theorem any_eq_false_of_all {l : List Board} {p : Board → Bool}
    (h : ∀ m ∈ l, p m = false) : l.any p = false := by
  induction l with
  | nil => rfl
  | cons m t ih =>
    rw [List.any_cons, h m (List.mem_cons_self m t),
        ih fun a ha => h a (List.mem_cons_of_mem m ha)]
    rfl

/-! ## The probed square is untouched by a move landing elsewhere -/

theorem attackCheck_congr {m m2 : Board} {pos : Position} (color : PieceColor)
    (h : GetBoardAt m pos = GetBoardAt m2 pos) :
    attackCheck pos color m = attackCheck pos color m2 := by
  show ((GetBoardAt m pos).piece != Piece_Empty &&
      (GetBoardAt m pos).color != color) =
    ((GetBoardAt m2 pos).piece != Piece_Empty &&
      (GetBoardAt m2 pos).color != color)
  rw [h]

theorem attackCheck_false_of_empty {m : Board} {pos : Position} (color : PieceColor)
    (h : (GetBoardAt m pos).piece = Piece_Empty) :
    attackCheck pos color m = false := by
  show ((GetBoardAt m pos).piece != Piece_Empty &&
      (GetBoardAt m pos).color != color) = false
  rw [h]
  simp

theorem attackCheck_false_of_color {m : Board} {pos : Position} {color : PieceColor}
    (h : (GetBoardAt m pos).color = color) :
    attackCheck pos color m = false := by
  show ((GetBoardAt m pos).piece != Piece_Empty &&
      (GetBoardAt m pos).color != color) = false
  rw [h]
  simp

theorem resetPawns_color_at (b : Board) (c : PieceColor) (q : Position)
    (hq : PositionInBoard q = true) :
    (GetBoardAt (resetPawnsStatus b c) q).color = (GetBoardAt b q).color := by
  rw [GetBoardAt_resetPawnsStatus b c q hq]
  split_ifs with hc
  · exact hc.2.symm
  · rfl

theorem GetBoardAt_ApplyMove_empty_origin (b : Board) (fm : FullMove) (u : Bool)
    (hp : PositionInBoard fm.pos = true)
    (hne : fm.pos ≠ PositionAdd fm.pos fm.move) :
    GetBoardAt (ApplyMove b fm u) fm.pos = EmptyPieceInfo := by
  rw [ApplyMove_eq_general,
      GetBoardAt_SetBoardAt_other _ _ _ _ hp hne,
      GetBoardAt_SetBoardAt_same _ _ _ hp (by decide)]

theorem GetBoardAt_ApplyMove_color_other (b : Board) (fm : FullMove) (u : Bool)
    (q : Position) (hq : PositionInBoard q = true) (h1 : q ≠ fm.pos)
    (h2 : q ≠ PositionAdd fm.pos fm.move) :
    (GetBoardAt (ApplyMove b fm u) q).color = (GetBoardAt b q).color := by
  rw [ApplyMove_eq_general,
      GetBoardAt_SetBoardAt_other _ _ _ _ hq h2,
      GetBoardAt_SetBoardAt_other _ _ _ _ hq h1]
  cases u
  · rfl
  · exact resetPawns_color_at b _ q hq

theorem attackCheck_ApplyMove_away (b : Board) (fm : FullMove) (u : Bool)
    {pos : Position} {color : PieceColor} (hpos : PositionInBoard pos = true)
    (h2 : pos ≠ PositionAdd fm.pos fm.move)
    (hcol : (GetBoardAt b pos).color = color) :
    attackCheck pos color (ApplyMove b fm u) = false := by
  by_cases h1 : pos = fm.pos
  · subst h1
    apply attackCheck_false_of_empty color
    rw [GetBoardAt_ApplyMove_empty_origin b fm u hpos h2]
    rfl
  · exact attackCheck_false_of_color
      (by rw [GetBoardAt_ApplyMove_color_other b fm u pos hpos h1 h2, hcol])

theorem attackCheck_ApplyEnPassant_away (b : Board) (fm : FullMove) (u : Bool)
    {pos : Position} {color : PieceColor} (hpos : PositionInBoard pos = true)
    (h2 : pos ≠ PositionAdd fm.pos fm.move)
    (hcol : (GetBoardAt b pos).color = color) :
    attackCheck pos color (ApplyEnPassant b fm u) = false := by
  have he : ApplyEnPassant b fm u =
      SetBoardAt (ApplyMove b fm u)
        ⟨(PositionAdd fm.pos fm.move).x, fm.pos.y⟩ EmptyPieceInfo := rfl
  rw [he]
  by_cases hc : pos = (⟨(PositionAdd fm.pos fm.move).x, fm.pos.y⟩ : Position)
  · apply attackCheck_false_of_empty color
    rw [hc, GetBoardAt_SetBoardAt_same _ _ _ (by rw [← hc]; exact hpos) (by decide)]
    rfl
  · rw [attackCheck_congr color (GetBoardAt_SetBoardAt_other _ _ _ _ hpos hc)]
    exact attackCheck_ApplyMove_away b fm u hpos h2 hcol

theorem attackCheck_promo_away (b : Board) (fm : FullMove) {pos : Position}
    {color : PieceColor} (hpos : PositionInBoard pos = true)
    (h2 : pos ≠ PositionAdd fm.pos fm.move)
    (hcol : (GetBoardAt b pos).color = color) (i1 i2 : PieceInfo) :
    attackCheck pos color
      (SetBoardAt
        (SetBoardAt (ApplyMove b fm true) (PositionAdd fm.pos fm.move) i1)
        (PositionAdd fm.pos fm.move) i2) = false := by
  rw [attackCheck_congr color (GetBoardAt_SetBoardAt_other _ _ _ _ hpos h2),
      attackCheck_congr color (GetBoardAt_SetBoardAt_other _ _ _ _ hpos h2)]
  exact attackCheck_ApplyMove_away b fm true hpos h2 hcol

/-! ## Pawn move emission: accumulator factorisation and congruences -/

theorem addPawnMove_append (board : Board) (info : PieceInfo) (mv : FullMove)
    (ep : Bool) (moves : List Board) :
    addPawnMove board info mv ep moves = moves ++ addPawnMove board info mv ep [] := by
  rw [addPawnMove, addPawnMove]
  dsimp only
  by_cases h : (PositionAdd mv.pos mv.move).y ≠ 0 ∧ (PositionAdd mv.pos mv.move).y ≠ 7
  · rw [if_pos h, if_pos h, List.nil_append]
  · rw [if_neg h, if_neg h, List.nil_append]

theorem attackCheck_addPawnMove_away (b : Board) (info : PieceInfo) (fm : FullMove)
    (ep : Bool) {pos : Position} {color : PieceColor}
    (hpos : PositionInBoard pos = true)
    (h2 : pos ≠ PositionAdd fm.pos fm.move)
    (hcol : (GetBoardAt b pos).color = color) :
    ∀ m ∈ addPawnMove b info fm ep [], attackCheck pos color m = false := by
  intro m hm
  rw [addPawnMove] at hm
  dsimp only at hm
  by_cases h : (PositionAdd fm.pos fm.move).y ≠ 0 ∧ (PositionAdd fm.pos fm.move).y ≠ 7
  · rw [if_pos h, List.nil_append, List.mem_singleton] at hm
    subst hm
    cases ep
    · exact attackCheck_ApplyMove_away b fm true hpos h2 hcol
    · exact attackCheck_ApplyEnPassant_away b fm true hpos h2 hcol
  · rw [if_neg h, List.nil_append, List.mem_map] at hm
    obtain ⟨np, -, rfl⟩ := hm
    exact attackCheck_promo_away b fm hpos h2 hcol _ _

theorem ApplyPawnPromotion_planesEq {b b' : Board} (h : PlanesEq b b') (mv : FullMove)
    (np : Piece) (u u' : Bool) :
    PlanesEq (ApplyPawnPromotion b mv np u) (ApplyPawnPromotion b' mv np u') := by
  rw [ApplyPawnPromotion, ApplyPawnPromotion]
  refine SetBoardAt_planesEq_congr (ApplyMove_planesEq h mv u u') _ ?_ ?_
  · rfl
  · exact GetBoardAt_color_planesEq h mv.pos

theorem addPawnMove_forall₂ {b b' : Board} (h : PlanesEq b b')
    {info info' : PieceInfo} (hci : info.color = info'.color) (mv : FullMove)
    (ep : Bool) :
    List.Forall₂ PlanesEq (addPawnMove b info mv ep [])
      (addPawnMove b' info' mv ep []) := by
  rw [addPawnMove, addPawnMove]
  dsimp only
  by_cases hy : (PositionAdd mv.pos mv.move).y ≠ 0 ∧ (PositionAdd mv.pos mv.move).y ≠ 7
  · rw [if_pos hy, if_pos hy]
    simp only [List.nil_append]
    refine List.Forall₂.cons ?_ List.Forall₂.nil
    cases ep
    · exact ApplyMove_planesEq h mv true true
    · exact SetBoardAt_planesEq_congr (ApplyMove_planesEq h mv true true) _ rfl rfl
  · rw [if_neg hy, if_neg hy]
    simp only [List.nil_append]
    apply forall₂_map_of_rel
    intro np _
    refine SetBoardAt_planesEq_congr (ApplyPawnPromotion_planesEq h mv np true true)
      _ ?_ hci
    rfl

theorem pawnSpecialStep_append (board : Board) (p0 : Position) (info : PieceInfo)
    (yDir : Int) (l : List Board) (x : Int) :
    pawnSpecialStep board p0 info yDir l x =
      l ++ pawnSpecialStep board p0 info yDir [] x := by
  rw [pawnSpecialStep, pawnSpecialStep]
  dsimp only
  split_ifs with h1 h2 h3 h4
  · rw [List.append_nil]
  · exact addPawnMove_append board info _ false l
  · rw [List.append_nil]
  · rw [List.nil_append]
  · rw [List.append_nil]

theorem foldl_pawnSpecialStep_append (board : Board) (p0 : Position)
    (info : PieceInfo) (yDir : Int) (xs : List Int) :
    ∀ l : List Board,
      xs.foldl (pawnSpecialStep board p0 info yDir) l =
        l ++ xs.foldl (pawnSpecialStep board p0 info yDir) [] := by
  induction xs with
  | nil => intro l; rw [List.foldl_nil, List.foldl_nil, List.append_nil]
  | cons x t ih =>
    intro l
    rw [List.foldl_cons, List.foldl_cons,
        ih (pawnSpecialStep board p0 info yDir l x),
        ih (pawnSpecialStep board p0 info yDir [] x),
        pawnSpecialStep_append board p0 info yDir l x, List.append_assoc]

theorem addPawnSpecialMoves_append (board : Board) (p0 : Position)
    (info : PieceInfo) (l : List Board) :
    addPawnSpecialMoves board p0 info l =
      l ++ addPawnSpecialMoves board p0 info [] := by
  rw [addPawnSpecialMoves, addPawnSpecialMoves]
  split_ifs <;> first
    | rw [List.append_nil]
    | exact foldl_pawnSpecialStep_append board p0 info _ _ l

theorem addCastlingMoves_append (board : Board) (kp : Position) (ki : PieceInfo)
    (l : List Board) :
    addCastlingMoves board kp ki l = l ++ addCastlingMoves board kp ki [] := by
  rw [addCastlingMoves, addCastlingMoves]
  split_ifs with h
  · rw [List.append_nil]
  · simp only [List.foldl_cons, List.foldl_nil]
    by_cases h1 : (addCastlingMove board kp ki (-1)).2 <;>
      by_cases h2 : (addCastlingMove board kp ki 1).2 <;>
        simp [h1, h2]

theorem pawnSpecialStep_any_congr {b b' : Board} (h : PlanesEq b b')
    {info info' : PieceInfo} (hci : info.color = info'.color)
    (p0 : Position) (yDir : Int) {pos : Position} {color : PieceColor}
    (hpos : PositionInBoard pos = true)
    (hcol : (GetBoardAt b pos).color = color)
    (hocc : (GetBoardAt b pos).piece ≠ Piece_Empty)
    {l l' : List Board}
    (hl : l.any (attackCheck pos color) = l'.any (attackCheck pos color))
    (x : Int) :
    (pawnSpecialStep b p0 info yDir l x).any (attackCheck pos color) =
      (pawnSpecialStep b' p0 info' yDir l' x).any (attackCheck pos color) := by
  rw [pawnSpecialStep, pawnSpecialStep]
  dsimp only
  by_cases hedge : p0.x + x < 0 ∨ p0.x + x > 7
  · rw [if_pos hedge, if_pos hedge]
    exact hl
  · rw [if_neg hedge, if_neg hedge]
    by_cases hocc2 : (GetBoardAt b ⟨p0.x + x, p0.y + yDir⟩).piece ≠ Piece_Empty
    · have hocc2' : (GetBoardAt b' ⟨p0.x + x, p0.y + yDir⟩).piece ≠ Piece_Empty := by
        rw [← GetBoardAt_piece_planesEq h]
        exact hocc2
      rw [if_pos hocc2, if_pos hocc2']
      by_cases hcolne : (GetBoardAt b ⟨p0.x + x, p0.y + yDir⟩).color ≠ info.color
      · have hcolne' : (GetBoardAt b' ⟨p0.x + x, p0.y + yDir⟩).color ≠ info'.color := by
          rw [← GetBoardAt_color_planesEq h, ← hci]
          exact hcolne
        rw [if_pos hcolne, if_pos hcolne',
            addPawnMove_append b info _ false l, addPawnMove_append b' info' _ false l',
            List.any_append, List.any_append, hl,
            forall₂_any_attackCheck (addPawnMove_forall₂ h hci _ false) pos color]
      · have hcolne' : ¬(GetBoardAt b' ⟨p0.x + x, p0.y + yDir⟩).color ≠ info'.color := by
          rw [← GetBoardAt_color_planesEq h, ← hci]
          exact hcolne
        rw [if_neg hcolne, if_neg hcolne']
        exact hl
    · have hocc2' : ¬(GetBoardAt b' ⟨p0.x + x, p0.y + yDir⟩).piece ≠ Piece_Empty := by
        rw [← GetBoardAt_piece_planesEq h]
        exact hocc2
      rw [if_neg hocc2, if_neg hocc2']
      have hemp : (GetBoardAt b ⟨p0.x + x, p0.y + yDir⟩).piece = Piece_Empty :=
        not_ne_iff.mp hocc2
      have htar : pos ≠ PositionAdd p0 ⟨x, yDir⟩ := by
        rw [show PositionAdd p0 ⟨x, yDir⟩ = (⟨p0.x + x, p0.y + yDir⟩ : Position) from rfl]
        intro he
        exact hocc (by rw [he, hemp])
      have hcol' : (GetBoardAt b' pos).color = color := by
        rw [← GetBoardAt_color_planesEq h]
        exact hcol
      have tailb : (addPawnMove b info ⟨p0, ⟨x, yDir⟩⟩ true []).any
          (attackCheck pos color) = false :=
        any_eq_false_of_all (attackCheck_addPawnMove_away b info _ true hpos htar hcol)
      have tailb' : (addPawnMove b' info' ⟨p0, ⟨x, yDir⟩⟩ true []).any
          (attackCheck pos color) = false :=
        any_eq_false_of_all (attackCheck_addPawnMove_away b' info' _ true hpos htar hcol')
      split_ifs with hb hb' hb'
      · rw [List.any_append, List.any_append, tailb, tailb', Bool.or_false,
            Bool.or_false]
        exact hl
      · rw [List.any_append, tailb, Bool.or_false]
        exact hl
      · rw [List.any_append, tailb', Bool.or_false]
        exact hl
      · exact hl

theorem addPawnSpecialMoves_any_congr {b b' : Board} (h : PlanesEq b b')
    {info info' : PieceInfo} (hci : info.color = info'.color)
    (p0 : Position) {pos : Position} {color : PieceColor}
    (hpos : PositionInBoard pos = true)
    (hcol : (GetBoardAt b pos).color = color)
    (hocc : (GetBoardAt b pos).piece ≠ Piece_Empty)
    {l l' : List Board}
    (hl : l.any (attackCheck pos color) = l'.any (attackCheck pos color)) :
    (addPawnSpecialMoves b p0 info l).any (attackCheck pos color) =
      (addPawnSpecialMoves b' p0 info' l').any (attackCheck pos color) := by
  rw [addPawnSpecialMoves, addPawnSpecialMoves]
  rw [hci]
  by_cases hy : p0.y + (if info'.color = PieceColor_White then (-1 : Int) else 1) < 0 ∨
      p0.y + (if info'.color = PieceColor_White then (-1 : Int) else 1) > 7
  · rw [if_pos hy, if_pos hy]
    exact hl
  · rw [if_neg hy, if_neg hy]
    simp only [List.foldl_cons, List.foldl_nil]
    exact pawnSpecialStep_any_congr h hci p0 _ hpos hcol hocc
      (pawnSpecialStep_any_congr h hci p0 _ hpos hcol hocc hl (-1)) 1

/-! ## Pseudo-move lists and the attack probe across the status plane -/

theorem pawnArms_any_congr {b b' : Board} (h : PlanesEq b b') (p0 : Position)
    (pos : Position) (color : PieceColor) (M1 M : List Move) (u u' : Bool) :
    ((match M1 with
      | [m] => addPawnMove b (GetBoardAt b p0) ⟨p0, m⟩ false []
      | _ => M.map fun m => ApplyMove b ⟨p0, m⟩ u) : List Board).any
        (attackCheck pos color) =
    ((match M1 with
      | [m] => addPawnMove b' (GetBoardAt b' p0) ⟨p0, m⟩ false []
      | _ => M.map fun m => ApplyMove b' ⟨p0, m⟩ u') : List Board).any
        (attackCheck pos color) := by
  rcases M1 with _ | ⟨m, _ | ⟨m2, r⟩⟩
  · exact forall₂_any_attackCheck
      (forall₂_map_of_rel _ _ M fun m _ => ApplyMove_planesEq h ⟨p0, m⟩ u u') pos color
  · exact forall₂_any_attackCheck
      (addPawnMove_forall₂ h (GetBoardAt_color_planesEq h p0) ⟨p0, m⟩ false) pos color
  · exact forall₂_any_attackCheck
      (forall₂_map_of_rel _ _ M fun m _ => ApplyMove_planesEq h ⟨p0, m⟩ u u') pos color

theorem pseudoMoves_any_congr {b b' : Board} (h : PlanesEq b b') (p0 : Position)
    {pos : Position} {color : PieceColor}
    (hpos : PositionInBoard pos = true)
    (hcol : (GetBoardAt b pos).color = color)
    (hocc : (GetBoardAt b pos).piece ≠ Piece_Empty) :
    (pseudoMoves b p0 (GetBoardAt b p0) true).any (attackCheck pos color) =
      (pseudoMoves b' p0 (GetBoardAt b' p0) true).any (attackCheck pos color) := by
  have hpi := GetBoardAt_piece_planesEq h p0
  have hci := GetBoardAt_color_planesEq h p0
  have hW : walkSeq b p0 (GetBoardAt b p0) = walkSeq b' p0 (GetBoardAt b' p0) :=
    funext (walkSeq_planesEq h p0 hpi hci)
  rw [pseudoMoves, pseudoMoves]
  dsimp only
  rw [hW, hpi, hci]
  by_cases hpawn : (GetBoardAt b' p0).piece = Piece_Pawn
  · rw [if_pos hpawn, if_pos hpawn]
    exact addPawnSpecialMoves_any_congr h hci p0 hpos hcol hocc
      (pawnArms_any_congr h p0 pos color _ _ _ _)
  · rw [if_neg hpawn, if_neg hpawn]
    exact forall₂_any_attackCheck
      (forall₂_map_of_rel _ _ _ fun m _ => ApplyMove_planesEq h ⟨p0, m⟩ _ _) pos color

theorem isUnderAttack_planesEq {b b' : Board} (h : PlanesEq b b') {pos : Position}
    {color : PieceColor} (hpos : PositionInBoard pos = true)
    (hcol : (GetBoardAt b pos).color = color)
    (hocc : (GetBoardAt b pos).piece ≠ Piece_Empty) :
    isUnderAttack b pos color = isUnderAttack b' pos color := by
  rw [isUnderAttack, isUnderAttack, ← GetPiecesByColor_planesEq h (!color)]
  apply list_any_congr
  intro ePos hmem
  show (pseudoMoves b ePos (GetBoardAt b ePos) true).any (attackCheck pos color) =
    (pseudoMoves b' ePos (GetBoardAt b' ePos) true).any (attackCheck pos color)
  exact pseudoMoves_any_congr h ePos hpos hcol hocc

/-! ## Quick mode refines full mode up to the status plane -/

theorem pawnArms_forall₂ (board : Board) (p0 : Position) (info : PieceInfo)
    (M1 M : List Move) (u u' : Bool) :
    List.Forall₂ PlanesEq
      ((match M1 with
        | [m] => addPawnMove board info ⟨p0, m⟩ false []
        | _ => M.map fun m => ApplyMove board ⟨p0, m⟩ u) : List Board)
      ((match M1 with
        | [m] => addPawnMove board info ⟨p0, m⟩ false []
        | _ => M.map fun m => ApplyMove board ⟨p0, m⟩ u') : List Board) := by
  rcases M1 with _ | ⟨m, _ | ⟨m2, r⟩⟩
  · exact forall₂_map_of_rel _ _ M fun m _ =>
      ApplyMove_planesEq (planesEq_refl board) ⟨p0, m⟩ u u'
  · exact forall₂_planesEq_self _
  · exact forall₂_map_of_rel _ _ M fun m _ =>
      ApplyMove_planesEq (planesEq_refl board) ⟨p0, m⟩ u u'

theorem addPawnSpecialMoves_forall₂ (board : Board) (p0 : Position)
    (info : PieceInfo) {l l' : List Board} (hf : List.Forall₂ PlanesEq l l') :
    List.Forall₂ PlanesEq (addPawnSpecialMoves board p0 info l)
      (addPawnSpecialMoves board p0 info l') := by
  rw [addPawnSpecialMoves_append board p0 info l,
      addPawnSpecialMoves_append board p0 info l']
  exact forall₂_append_planes hf (forall₂_planesEq_self _)

theorem pseudoMoves_forall₂ (board : Board) (p0 : Position) (info : PieceInfo) :
    List.Forall₂ PlanesEq (pseudoMoves board p0 info true)
      (pseudoMoves board p0 info false) := by
  rw [pseudoMoves, pseudoMoves]
  dsimp only
  by_cases hpawn : info.piece = Piece_Pawn
  · rw [if_pos hpawn, if_pos hpawn]
    exact addPawnSpecialMoves_forall₂ board p0 info
      (pawnArms_forall₂ board p0 info _ _ _ _)
  · rw [if_neg hpawn, if_neg hpawn]
    exact forall₂_map_of_rel _ _ _ fun m _ =>
      ApplyMove_planesEq (planesEq_refl board) ⟨p0, m⟩ _ _

/-! ## The check filter across the status plane -/

theorem removeCheckMoves_append (l t : List Board) (c : PieceColor) :
    removeCheckMoves (l ++ t) c = removeCheckMoves l c ++ removeCheckMoves t c := by
  rw [removeCheckMoves, removeCheckMoves, removeCheckMoves, List.filter_append]

theorem removeCheckMoves_pred_planesEq {m m2 : Board} (hpe : PlanesEq m m2)
    (color : PieceColor) :
    ((match GetPieces m Piece_King color with
      | [] => true
      | kingPos :: _ => !isUnderAttack m kingPos color) : Bool) =
    ((match GetPieces m2 Piece_King color with
      | [] => true
      | kingPos :: _ => !isUnderAttack m2 kingPos color) : Bool) := by
  rw [← GetPieces_planesEq hpe Piece_King color]
  rcases hG : GetPieces m Piece_King color with _ | ⟨k, rest⟩
  · rfl
  · have hk : k ∈ GetPieces m Piece_King color := by
      rw [hG]
      exact List.mem_cons_self k rest
    obtain ⟨hkpos, hkpiece, hkcol⟩ := (mem_GetPieces m Piece_King color k).mp hk
    show (!isUnderAttack m k color) = (!isUnderAttack m2 k color)
    rw [isUnderAttack_planesEq hpe hkpos hkcol (by rw [hkpiece]; decide)]

theorem removeCheck_nil_congr {l l' : List Board} (color : PieceColor)
    (hf : List.Forall₂ PlanesEq l l')
    (hnil : removeCheckMoves l' color = []) : removeCheckMoves l color = [] := by
  rw [removeCheckMoves, List.filter_eq_nil_iff] at hnil ⊢
  intro m hm
  obtain ⟨m2, hmem, hpe⟩ := forall₂_mem_left hf hm
  intro hcontra
  apply hnil m2 hmem
  show (match GetPieces m2 Piece_King color with
        | [] => true
        | kingPos :: _ => !isUnderAttack m2 kingPos color) = true
  rw [← removeCheckMoves_pred_planesEq hpe color]
  exact hcontra

theorem quickEmpty_of_fullEmpty (board : Board) (p0 : Position)
    (hfull : GetPossibleMoves board p0 (GetBoardAt board p0) true false = []) :
    GetPossibleMoves board p0 (GetBoardAt board p0) true true = [] := by
  rw [GetPossibleMoves_filter_eq] at hfull ⊢
  have hmid : removeCheckMoves (pseudoMoves board p0 (GetBoardAt board p0) false)
      (GetBoardAt board p0).color = [] := by
    have hfull2 : removeCheckMoves
        (if ((GetBoardAt board p0).piece == Piece_King) = true then
          addCastlingMoves board p0 (GetBoardAt board p0)
            (pseudoMoves board p0 (GetBoardAt board p0) false)
        else pseudoMoves board p0 (GetBoardAt board p0) false)
        (GetBoardAt board p0).color = [] := hfull
    by_cases hk : ((GetBoardAt board p0).piece == Piece_King) = true
    · rw [if_pos hk, addCastlingMoves_append, removeCheckMoves_append] at hfull2
      exact (List.append_eq_nil.mp hfull2).1
    · rw [if_neg hk] at hfull2
      exact hfull2
  have hquick : GetPossibleMoves board p0 (GetBoardAt board p0) false true =
      pseudoMoves board p0 (GetBoardAt board p0) true := rfl
  rw [hquick]
  exact removeCheck_nil_congr _ (pseudoMoves_forall₂ board p0 (GetBoardAt board p0)) hmid

/-! # Claim theorems -/

/-- C9: for every board, every in-range position, and every square content
with one of the seven defined piece kinds, reading after writing returns
exactly the written content, and every other in-range square is unchanged
by the write. -/
theorem C9_get_set_roundtrip (board : Board) (pos : Position) (info : PieceInfo)
    (hpos : PositionInBoard pos = true) (hp : info.piece < 7) :
    GetBoardAt (SetBoardAt board pos info) pos = info ∧
      ∀ q : Position, PositionInBoard q = true → q ≠ pos →
        GetBoardAt (SetBoardAt board pos info) q = GetBoardAt board q := by
  refine ⟨GetBoardAt_SetBoardAt_same board pos info hpos ?_,
    fun q hq hne => GetBoardAt_SetBoardAt_other board pos q info hq hne⟩
  have h8 : (7 : Nat) < 8 := by decide
  exact Nat.lt_trans hp h8

theorem C9_get_set_roundtrip_witness :
    GetBoardAt (SetBoardAt zeroBoard ⟨3, 4⟩ ⟨Piece_Queen, PieceStatus_Default, PieceColor_Black⟩)
        ⟨3, 4⟩ = ⟨Piece_Queen, PieceStatus_Default, PieceColor_Black⟩ ∧
      GetBoardAt (SetBoardAt zeroBoard ⟨3, 4⟩ ⟨Piece_Queen, PieceStatus_Default, PieceColor_Black⟩)
        ⟨2, 2⟩ = GetBoardAt zeroBoard ⟨2, 2⟩ := by
  have h := C9_get_set_roundtrip zeroBoard ⟨3, 4⟩
    ⟨Piece_Queen, PieceStatus_Default, PieceColor_Black⟩ (by decide) (by decide)
  exact ⟨h.1, h.2 ⟨2, 2⟩ (by decide) (by decide)⟩

/-- C8: with the king of the side to move on the board, `GetGameStatus`
reports checkmate (other color wins) when the move count is zero and the
king is attacked, stalemate (draw) when the count is zero and the king is
safe, and an unfinished game otherwise. -/
theorem C8_game_status (board : Board) (color : PieceColor) (count : Int)
    (kpos : Position) (rest : List Position)
    (hk : GetPieces board Piece_King color = kpos :: rest) :
    (count = 0 ∧ isUnderAttack board kpos color = true →
      GetGameStatus board color count = (true, false, !color)) ∧
    (count = 0 ∧ isUnderAttack board kpos color = false →
      (GetGameStatus board color count).1 = true ∧
        (GetGameStatus board color count).2.1 = true) ∧
    (count ≠ 0 → (GetGameStatus board color count).1 = false) := by
  have hcm : isCheckMate board count color =
      (count == 0 && isUnderAttack board kpos color) := by
    rw [isCheckMate, hk]
  refine ⟨?_, ?_, ?_⟩
  · rintro ⟨rfl, hatt⟩
    rw [GetGameStatus, hcm, hatt]
    simp
  · rintro ⟨rfl, hatt⟩
    rw [GetGameStatus, hcm, hatt]
    simp
  · intro hne
    have h0 : (count == 0) = false := by
      simpa using hne
    rw [GetGameStatus, hcm, h0]
    simp

theorem C8_game_status_witness :
    GetGameStatus mateBoard PieceColor_Black 0 = (true, false, !PieceColor_Black) ∧
      ((GetGameStatus staleBoard PieceColor_Black 0).1 = true ∧
        (GetGameStatus staleBoard PieceColor_Black 0).2.1 = true) ∧
      (GetGameStatus twoKingsBoard PieceColor_White 5).1 = false := by
  refine ⟨?_, ?_, ?_⟩
  · exact (C8_game_status mateBoard PieceColor_Black 0 ⟨0, 0⟩ [] (by decide)).1
      ⟨rfl, by decide⟩
  · exact (C8_game_status staleBoard PieceColor_Black 0 ⟨0, 0⟩ [] (by decide)).2.1
      ⟨rfl, by decide⟩
  · exact (C8_game_status twoKingsBoard PieceColor_White 5 ⟨0, 7⟩ [] (by decide)).2.2
      (by decide)

/-- C10: when `EvaluateBoard`'s game-status probe reports a finished,
non-drawn game, the winner is always the opposite of the evaluated color
(the status is computed with the evaluated color as the side to move), so
the evaluation is the loss score -1000 — the +1000 win branch is dead. -/
theorem C10_finished_means_loss (board : Board) (color : PieceColor)
    (kpos : Position) (rest : List Position)
    (hk : GetPieces board Piece_King color = kpos :: rest)
    (hfin : (GetGameStatus board color (GetPossibleMoveCount board color true)).1 = true)
    (hnd : (GetGameStatus board color (GetPossibleMoveCount board color true)).2.1 = false) :
    (GetGameStatus board color (GetPossibleMoveCount board color true)).2.2 = !color ∧
      EvaluateBoard board color = -1000 := by
  have hcm : isCheckMate board (GetPossibleMoveCount board color true) color = true := by
    by_contra hc
    rw [Bool.not_eq_true] at hc
    rw [GetGameStatus, hc] at hfin hnd
    simp only [Bool.false_eq_true, if_false] at hfin hnd
    by_cases h0 : (GetPossibleMoveCount board color true == 0) = true
    · rw [h0] at hnd
      simp at hnd
    · rw [Bool.not_eq_true] at h0
      rw [h0] at hfin
      simp at hfin
  have hst : GetGameStatus board color (GetPossibleMoveCount board color true) =
      (true, false, !color) := by
    rw [GetGameStatus, hcm]
    simp
  refine ⟨by rw [hst], ?_⟩
  rw [EvaluateBoard]
  simp only [hst]
  have : (!color = color) = False := by
    cases color <;> simp
  simp [this]

theorem C10_finished_means_loss_witness :
    (GetGameStatus mateBoard PieceColor_Black
        (GetPossibleMoveCount mateBoard PieceColor_Black true)).2.2 = !PieceColor_Black ∧
      EvaluateBoard mateBoard PieceColor_Black = -1000 :=
  C10_finished_means_loss mateBoard PieceColor_Black ⟨0, 0⟩ [] (by decide) (by decide)
    (by decide)

/-- C7: the static evaluation is mobility difference plus twice the
material difference (king 1000, queen 9, rook 5, knight 3, bishop 3,
pawn 1, pieces summed over the color's piece list), except on concluded
games: draw -100, win for the evaluated color +1000, loss -1000. -/
theorem C7_evaluation_formula (board : Board) (color : PieceColor)
    (kpos : Position) (rest : List Position)
    (hk : GetPieces board Piece_King color = kpos :: rest) :
    (pieceScoreMap Piece_King = 1000 ∧ pieceScoreMap Piece_Queen = 9 ∧
      pieceScoreMap Piece_Rock = 5 ∧ pieceScoreMap Piece_Knight = 3 ∧
      pieceScoreMap Piece_Bishop = 3 ∧ pieceScoreMap Piece_Pawn = 1) ∧
    (∀ c : PieceColor, getPiecesScore board c =
      ((GetPiecesByColor board c).map fun pos =>
        pieceScoreMap (GetBoardAt board pos).piece).sum) ∧
    EvaluateBoard board color =
      (if (GetGameStatus board color (GetPossibleMoveCount board color true)).1 then
        (if (GetGameStatus board color (GetPossibleMoveCount board color true)).2.1 then -100
         else if (GetGameStatus board color (GetPossibleMoveCount board color true)).2.2 = color
         then 1000 else -1000)
       else
        (GetPossibleMoveCount board color true - GetPossibleMoveCount board (!color) true) +
          (getPiecesScore board color - getPiecesScore board (!color)) * 2) := by
  refine ⟨by decide, fun c => getPiecesScore_eq_sum board c, rfl⟩

theorem C7_evaluation_formula_witness :
    EvaluateBoard twoKingsBoard PieceColor_White =
      (if (GetGameStatus twoKingsBoard PieceColor_White
            (GetPossibleMoveCount twoKingsBoard PieceColor_White true)).1 then
        (if (GetGameStatus twoKingsBoard PieceColor_White
              (GetPossibleMoveCount twoKingsBoard PieceColor_White true)).2.1 then -100
         else if (GetGameStatus twoKingsBoard PieceColor_White
              (GetPossibleMoveCount twoKingsBoard PieceColor_White true)).2.2 = PieceColor_White
         then 1000 else -1000)
       else
        (GetPossibleMoveCount twoKingsBoard PieceColor_White true -
            GetPossibleMoveCount twoKingsBoard (!PieceColor_White) true) +
          (getPiecesScore twoKingsBoard PieceColor_White -
            getPiecesScore twoKingsBoard (!PieceColor_White)) * 2) :=
  (C7_evaluation_formula twoKingsBoard PieceColor_White ⟨0, 7⟩ [] (by decide)).2.2

/-- C4 (amended): the move count equals the length of the move list that
`GetAllPossibleMoves` produces in quick mode — the mode the counter
actually uses — for every board, color, and filter flag.  (The full-mode
list can be longer: it additionally contains castling boards, see the
counterexample.) -/
theorem C4_count_is_quick_length (board : Board) (color : PieceColor)
    (filterCheckMoves : Bool) :
    GetPossibleMoveCount board color filterCheckMoves =
      ((GetAllPossibleMoves board color filterCheckMoves true).length : Int) := by
  rw [GetPossibleMoveCount, GetAllPossibleMoves, foldl_add_length_eq]
  omega

/-- C4 counterexample: on a board where White can castle, the count (23)
differs from the length of the full-mode list (24), because
`GetPossibleMoveCount` runs in quick mode and quick mode skips castling. -/
theorem C4_count_counterexample :
    GetPossibleMoveCount c4Board PieceColor_White true ≠
      ((GetAllPossibleMoves c4Board PieceColor_White true false).length : Int) := by
  decide

/-- C6: for a king on its home file with castling rights intact, the
castling move in a direction succeeds iff the corresponding corner rook
exists with matching color and default status, every square strictly
between king and rook is empty, and neither the king's square nor the two
squares it traverses is under attack; the generated board has the king
two squares toward the rook, the rook on the crossed square, and both
status flags set to castling-rights-revoked.  `addCastlingMoves` appends
exactly the succeeding directions, and only for a king whose own status
is still default. -/
theorem C6_castling_generation (board : Board) (y : Int) (kingInfo : PieceInfo)
    (dir : Int) (hy0 : 0 ≤ y) (hy7 : y ≤ 7) (hdir : dir = 1 ∨ dir = -1)
    (hkp : kingInfo.piece = Piece_King) :
    ((addCastlingMove board ⟨4, y⟩ kingInfo dir).2 = true ↔
      ((GetBoardAt board ⟨if dir = 1 then 7 else 0, y⟩).piece = Piece_Rock ∧
       (GetBoardAt board ⟨if dir = 1 then 7 else 0, y⟩).status = PieceStatus_Default ∧
       (GetBoardAt board ⟨if dir = 1 then 7 else 0, y⟩).color = kingInfo.color ∧
       (∀ x ∈ (if dir = 1 then [(5 : Int), 6] else [3, 2, 1]),
         (GetBoardAt board ⟨x, y⟩).piece = Piece_Empty) ∧
       (∀ x ∈ (if dir = 1 then [(4 : Int), 5, 6] else [4, 3, 2]),
         isUnderAttack board ⟨x, y⟩ kingInfo.color = false))) ∧
    ((addCastlingMove board ⟨4, y⟩ kingInfo dir).2 = true →
      GetBoardAt (addCastlingMove board ⟨4, y⟩ kingInfo dir).1 ⟨4 + 2 * dir, y⟩ =
        ⟨Piece_King, PieceStatus_CastlingNotAllowed, kingInfo.color⟩ ∧
      GetBoardAt (addCastlingMove board ⟨4, y⟩ kingInfo dir).1 ⟨4 + dir, y⟩ =
        ⟨Piece_Rock, PieceStatus_CastlingNotAllowed, kingInfo.color⟩) ∧
    (∀ (info : PieceInfo) (moves : List Board),
      (info.status = PieceStatus_Default →
        addCastlingMoves board ⟨4, y⟩ info moves =
          moves ++
            (if (addCastlingMove board ⟨4, y⟩ info (-1)).2 then
              [(addCastlingMove board ⟨4, y⟩ info (-1)).1] else []) ++
            (if (addCastlingMove board ⟨4, y⟩ info 1).2 then
              [(addCastlingMove board ⟨4, y⟩ info 1).1] else [])) ∧
      (info.status ≠ PieceStatus_Default →
        addCastlingMoves board ⟨4, y⟩ info moves = moves)) := by
  refine ⟨?_, ?_, ?_⟩
  · rcases hdir with rfl | rfl
    · rw [addCastlingMove]
      norm_num
      rw [show intSteps 7 1 8 5 = [5, 6] from by decide,
        show intSteps 7 1 8 4 = [4, 5, 6] from by decide]
      have hE : castlingEmptyPath board y [5, 6] = true ↔
          ((GetBoardAt board ⟨5, y⟩).piece = Piece_Empty ∧
           (GetBoardAt board ⟨6, y⟩).piece = Piece_Empty) := by
        rw [castlingEmptyPath_eq_true]
        exact forall_mem_pair
      have hAt : castlingAttackPath board y kingInfo.color [4, 5, 6] = true ↔
          (isUnderAttack board ⟨4, y⟩ kingInfo.color = false ∧
           isUnderAttack board ⟨5, y⟩ kingInfo.color = false ∧
           isUnderAttack board ⟨6, y⟩ kingInfo.color = false) := by
        rw [castlingAttackPath_eq_true]
        exact forall_mem_triple
      split_ifs with hA hB hC
      · refine iff_of_false (by simp) ?_
        rintro ⟨h1, h2, h3, -, -⟩
        tauto
      · refine iff_of_false (by simp) ?_
        rintro ⟨-, -, -, h4, -⟩
        rw [hE.mpr h4] at hB
        exact absurd hB (by simp)
      · refine iff_of_false (by simp) ?_
        rintro ⟨-, -, -, -, h5⟩
        rw [hAt.mpr h5] at hC
        exact absurd hC (by simp)
      · rw [Bool.not_eq_false] at hB hC
        push_neg at hA
        exact iff_of_true rfl ⟨hA.1, hA.2.1, hA.2.2, hE.mp hB, hAt.mp hC⟩
    · rw [addCastlingMove]
      norm_num
      rw [show intSteps 0 (-1) 8 3 = [3, 2, 1] from by decide,
        show intSteps 1 (-1) 8 4 = [4, 3, 2] from by decide]
      have hE : castlingEmptyPath board y [3, 2, 1] = true ↔
          ((GetBoardAt board ⟨3, y⟩).piece = Piece_Empty ∧
           (GetBoardAt board ⟨2, y⟩).piece = Piece_Empty ∧
           (GetBoardAt board ⟨1, y⟩).piece = Piece_Empty) := by
        rw [castlingEmptyPath_eq_true]
        exact forall_mem_triple
      have hAt : castlingAttackPath board y kingInfo.color [4, 3, 2] = true ↔
          (isUnderAttack board ⟨4, y⟩ kingInfo.color = false ∧
           isUnderAttack board ⟨3, y⟩ kingInfo.color = false ∧
           isUnderAttack board ⟨2, y⟩ kingInfo.color = false) := by
        rw [castlingAttackPath_eq_true]
        exact forall_mem_triple
      split_ifs with hA hB hC
      · refine iff_of_false (by simp) ?_
        rintro ⟨h1, h2, h3, -, -⟩
        tauto
      · refine iff_of_false (by simp) ?_
        rintro ⟨-, -, -, h4, -⟩
        rw [hE.mpr h4] at hB
        exact absurd hB (by simp)
      · refine iff_of_false (by simp) ?_
        rintro ⟨-, -, -, -, h5⟩
        rw [hAt.mpr h5] at hC
        exact absurd hC (by simp)
      · rw [Bool.not_eq_false] at hB hC
        push_neg at hA
        exact iff_of_true rfl ⟨hA.1, hA.2.1, hA.2.2, hE.mp hB, hAt.mp hC⟩
  · intro hok
    rw [addCastlingMove_ok board ⟨4, y⟩ kingInfo dir hok]
    rcases hdir with rfl | rfl
    · have hAC : ApplyCastling board ⟨4, y⟩ kingInfo 1 =
          ApplyMove
            (ApplyMove
              (SetBoardAt
                (SetBoardAt board ⟨7, y⟩
                  ⟨Piece_Rock, PieceStatus_CastlingNotAllowed, kingInfo.color⟩)
                ⟨4, y⟩ ⟨kingInfo.piece, PieceStatus_CastlingNotAllowed, kingInfo.color⟩)
              ⟨⟨7, y⟩, ⟨-2, 0⟩⟩ true)
            ⟨⟨4, y⟩, ⟨1 * 2, 0⟩⟩ true := rfl
      have h := castlingChainReads board y 7 5 6 (-2) (1 * 2) kingInfo hy0 hy7
        (by norm_num) (by norm_num) (by norm_num) (by norm_num) (by norm_num)
        (by norm_num) (by norm_num) (by norm_num) hkp
        (by norm_num) (by norm_num) (by norm_num) (by norm_num) (by norm_num)
        (by norm_num)
      rw [show ((4 : Int) + 2 * 1) = 6 from by norm_num,
        show ((4 : Int) + 1) = 5 from by norm_num]
      rw [show (ApplyCastling board ⟨4, y⟩ kingInfo 1, true).1 =
        ApplyCastling board ⟨4, y⟩ kingInfo 1 from rfl, hAC]
      exact h
    · have hAC : ApplyCastling board ⟨4, y⟩ kingInfo (-1) =
          ApplyMove
            (ApplyMove
              (SetBoardAt
                (SetBoardAt board ⟨0, y⟩
                  ⟨Piece_Rock, PieceStatus_CastlingNotAllowed, kingInfo.color⟩)
                ⟨4, y⟩ ⟨kingInfo.piece, PieceStatus_CastlingNotAllowed, kingInfo.color⟩)
              ⟨⟨0, y⟩, ⟨3, 0⟩⟩ true)
            ⟨⟨4, y⟩, ⟨-1 * 2, 0⟩⟩ true := rfl
      have h := castlingChainReads board y 0 3 2 3 (-1 * 2) kingInfo hy0 hy7
        (by norm_num) (by norm_num) (by norm_num) (by norm_num) (by norm_num)
        (by norm_num) (by norm_num) (by norm_num) hkp
        (by norm_num) (by norm_num) (by norm_num) (by norm_num) (by norm_num)
        (by norm_num)
      rw [show ((4 : Int) + 2 * -1) = 2 from by norm_num,
        show ((4 : Int) + -1) = 3 from by norm_num]
      rw [show (ApplyCastling board ⟨4, y⟩ kingInfo (-1), true).1 =
        ApplyCastling board ⟨4, y⟩ kingInfo (-1) from rfl, hAC]
      exact h
  · intro info moves
    constructor
    · intro hs
      rw [addCastlingMoves, if_neg (by rw [hs]; exact fun h => h rfl)]
      rw [List.foldl_cons, List.foldl_cons, List.foldl_nil]
      by_cases h1 : (addCastlingMove board ⟨4, y⟩ info (-1)).2 = true <;>
        by_cases h2 : (addCastlingMove board ⟨4, y⟩ info 1).2 = true <;>
        simp [h1, h2]
    · intro hs
      rw [addCastlingMoves, if_pos hs]

theorem C6_castling_generation_witness :
    ((addCastlingMove c4Board ⟨4, 7⟩ ⟨Piece_King, PieceStatus_Default, PieceColor_White⟩
        1).2 = true ↔
      ((GetBoardAt c4Board ⟨if (1 : Int) = 1 then 7 else 0, 7⟩).piece = Piece_Rock ∧
       (GetBoardAt c4Board ⟨if (1 : Int) = 1 then 7 else 0, 7⟩).status =
         PieceStatus_Default ∧
       (GetBoardAt c4Board ⟨if (1 : Int) = 1 then 7 else 0, 7⟩).color =
         (⟨Piece_King, PieceStatus_Default, PieceColor_White⟩ : PieceInfo).color ∧
       (∀ x ∈ (if (1 : Int) = 1 then [(5 : Int), 6] else [3, 2, 1]),
         (GetBoardAt c4Board ⟨x, 7⟩).piece = Piece_Empty) ∧
       (∀ x ∈ (if (1 : Int) = 1 then [(4 : Int), 5, 6] else [4, 3, 2]),
         isUnderAttack c4Board ⟨x, 7⟩
           (⟨Piece_King, PieceStatus_Default, PieceColor_White⟩ : PieceInfo).color =
           false))) ∧
    GetBoardAt (addCastlingMove c4Board ⟨4, 7⟩
        ⟨Piece_King, PieceStatus_Default, PieceColor_White⟩ 1).1 ⟨4 + 2 * 1, 7⟩ =
      ⟨Piece_King, PieceStatus_CastlingNotAllowed, PieceColor_White⟩ ∧
    GetBoardAt (addCastlingMove c4Board ⟨4, 7⟩
        ⟨Piece_King, PieceStatus_Default, PieceColor_White⟩ 1).1 ⟨4 + 1, 7⟩ =
      ⟨Piece_Rock, PieceStatus_CastlingNotAllowed, PieceColor_White⟩ := by
  have h := C6_castling_generation c4Board 7
    ⟨Piece_King, PieceStatus_Default, PieceColor_White⟩ 1 (by norm_num) (by norm_num)
    (Or.inl rfl) rfl
  have hok : (addCastlingMove c4Board ⟨4, 7⟩
      ⟨Piece_King, PieceStatus_Default, PieceColor_White⟩ 1).2 = true := by decide
  exact ⟨h.1, (h.2.1 hok).1, (h.2.1 hok).2⟩

/-- C2: every board produced with the check filter enabled has the mover's
king (when present) not under attack; and with the filter disabled a board
with the mover's king attacked can be produced (concrete instance). -/
theorem C2_check_filter :
    (∀ (board : Board) (color : PieceColor) (quickMode : Bool) (b : Board)
      (kpos : Position) (rest : List Position),
      b ∈ GetAllPossibleMoves board color true quickMode →
      GetPieces b Piece_King color = kpos :: rest →
      isUnderAttack b kpos color = false) ∧
    c2Bad ∈ GetAllPossibleMoves c2Board PieceColor_White false false ∧
    GetPieces c2Bad Piece_King PieceColor_White = [⟨0, 1⟩] ∧
    isUnderAttack c2Bad ⟨0, 1⟩ PieceColor_White = true := by
  refine ⟨?_, by decide, by decide, by decide⟩
  intro board color quickMode b kpos rest hb hk
  rw [GetAllPossibleMoves, List.mem_flatMap] at hb
  obtain ⟨pos, hpos, hb⟩ := hb
  obtain ⟨-, hcol, -⟩ := (mem_GetPiecesByColor board color pos).mp hpos
  rw [GetPossibleMoves_filter_eq, hcol] at hb
  exact mem_removeCheckMoves hb kpos rest hk

/-- C1 (supporting theorem for the code bug): the transposition table is
keyed by board alone, but the same board key legitimately arises in one
depth-3 search both (a) two plies below the root, where the search needs
its depth-1 negamax value, and (b) three plies below the root, where it
is cached with its depth-0 static evaluation for the other side — and
those two values differ.  Whichever subtree runs first poisons the other
through the shared per-call cache, which is why `Negamax c1Board White 3`
returns 3 while the unpruned, uncached reference returns 0. -/
theorem C1_cache_collision :
    c1X1 ∈ GetAllPossibleMoves c1Board PieceColor_White true false ∧
    c1X2 ∈ GetAllPossibleMoves c1Board PieceColor_White true false ∧
    c1Ymid ∈ GetAllPossibleMoves c1X1 PieceColor_Black true false ∧
    c1Z ∈ GetAllPossibleMoves c1Ymid PieceColor_White true false ∧
    c1Y ∈ GetAllPossibleMoves c1X2 PieceColor_Black true false ∧
    c1Z = c1Y ∧
    EvaluateBoard c1Y PieceColor_Black ≠
      (NegamaxAlphaBeta 1 c1Y PieceColor_White lowestScore biggestScore []).2.1 := by
  refine ⟨by decide, by decide, by decide, by decide, by decide, by decide, by decide⟩

/-- C3 counterexample: after White's double push the pawn on (4,4) is
flagged en-passant-capturable; Black then makes a state-updating reply
(a king move), after which the claim says the flag is cleared — but it is
still set, and the adjacent black pawn's en-passant capture is still
generated. -/
theorem C3_flag_survives_reply :
    GetBoardAt c3AfterPush ⟨4, 4⟩ =
      ⟨Piece_Pawn, PieceStatus_EnPassantAllowed, PieceColor_White⟩ ∧
    GetBoardAt c3AfterReply ⟨4, 4⟩ =
      ⟨Piece_Pawn, PieceStatus_EnPassantAllowed, PieceColor_White⟩ ∧
    ApplyEnPassant c3AfterReply ⟨⟨3, 4⟩, ⟨1, 1⟩⟩ true ∈
      addPawnSpecialMoves c3AfterReply ⟨3, 4⟩ (GetBoardAt c3AfterReply ⟨3, 4⟩) [] := by
  refine ⟨by decide, by decide, by decide⟩

/-- C3 (amended): a state-updating double push flags the moved pawn as
en-passant-capturable; while the flag is set an adjacent enemy pawn's
en-passant capture is generated (when its diagonal is a free, non-back-rank
square); the flag survives state-updating moves by the *opponent* of the
double-pusher, and is cleared only when the double-pusher's own side next
makes a state-updating move that does not touch the pawn's square. -/
theorem C3_en_passant_lifecycle :
    (∀ (board : Board) (fm : FullMove),
      PositionInBoard (PositionAdd fm.pos fm.move) = true →
      (GetBoardAt board fm.pos).piece = Piece_Pawn →
      fm.move.y.natAbs = 2 →
      GetBoardAt (ApplyMove board fm true) (PositionAdd fm.pos fm.move) =
        ⟨Piece_Pawn, PieceStatus_EnPassantAllowed, (GetBoardAt board fm.pos).color⟩) ∧
    (∀ (board : Board) (pos : Position) (info : PieceInfo) (moves : List Board)
      (dx yDir : Int),
      (dx = 1 ∨ dx = -1) →
      yDir = (if info.color = PieceColor_White then (-1 : Int) else 1) →
      0 ≤ pos.y + yDir → pos.y + yDir ≤ 7 →
      pos.y + yDir ≠ 0 → pos.y + yDir ≠ 7 →
      0 ≤ pos.x + dx → pos.x + dx ≤ 7 →
      (GetBoardAt board ⟨pos.x + dx, pos.y + yDir⟩).piece = Piece_Empty →
      (GetBoardAt board ⟨pos.x + dx, pos.y⟩).color ≠ info.color →
      (GetBoardAt board ⟨pos.x + dx, pos.y⟩).piece = Piece_Pawn →
      (GetBoardAt board ⟨pos.x + dx, pos.y⟩).status = PieceStatus_EnPassantAllowed →
      ApplyEnPassant board ⟨pos, ⟨dx, yDir⟩⟩ true ∈
        addPawnSpecialMoves board pos info moves) ∧
    (∀ (board : Board) (fm : FullMove) (p : Position),
      PositionInBoard p = true →
      (GetBoardAt board p).piece = Piece_Pawn →
      (GetBoardAt board fm.pos).color = !(GetBoardAt board p).color →
      p ≠ fm.pos → p ≠ PositionAdd fm.pos fm.move →
      GetBoardAt (ApplyMove board fm true) p = GetBoardAt board p) ∧
    (∀ (board : Board) (fm : FullMove) (p : Position),
      PositionInBoard p = true →
      (GetBoardAt board p).piece = Piece_Pawn →
      (GetBoardAt board fm.pos).color = (GetBoardAt board p).color →
      p ≠ fm.pos → p ≠ PositionAdd fm.pos fm.move →
      GetBoardAt (ApplyMove board fm true) p =
        ⟨Piece_Pawn, PieceStatus_Default, (GetBoardAt board p).color⟩) := by
  refine ⟨?_, ?_, ?_, ?_⟩
  · intro board fm ht hpawn hdouble
    rw [GetBoardAt_ApplyMove_true_target board fm ht,
      applyMoveInfo_pawn_double _ _ hpawn hdouble]
  · intro board pos info moves dx yDir hdx hyd hy0 hy7 hyn0 hyn7 hx0 hx7 hdiag hvcol hvp hvs
    rw [addPawnSpecialMoves, ← hyd]
    rw [if_neg (by omega)]
    have hsub := subset_pawnSpecialStep board pos info yDir
    rcases hdx with rfl | rfl
    · rw [List.foldl_cons, List.foldl_cons, List.foldl_nil]
      rw [pawnSpecialStep_enPassant board pos info yDir
        (pawnSpecialStep board pos info yDir moves (-1)) 1 hx0 hx7 hyn0 hyn7 hdiag
        hvcol hvp hvs]
      exact List.mem_append_right _ (List.mem_singleton.mpr rfl)
    · rw [List.foldl_cons, List.foldl_cons, List.foldl_nil]
      apply hsub
      rw [pawnSpecialStep_enPassant board pos info yDir moves (-1) hx0 hx7 hyn0 hyn7 hdiag
        hvcol hvp hvs]
      exact List.mem_append_right _ (List.mem_singleton.mpr rfl)
  · intro board fm p hp hpawn hcol h1 h2
    rw [GetBoardAt_ApplyMove_true_other board fm p hp h1 h2,
      GetBoardAt_resetPawnsStatus board _ p hp]
    rw [if_neg]
    rintro ⟨-, hcc⟩
    rw [hcol] at hcc
    simp at hcc
  · intro board fm p hp hpawn hcol h1 h2
    rw [GetBoardAt_ApplyMove_true_other board fm p hp h1 h2,
      GetBoardAt_resetPawnsStatus board _ p hp]
    rw [if_pos ⟨hpawn, hcol.symm⟩, hcol]

theorem C3_en_passant_lifecycle_witness :
    GetBoardAt (ApplyMove c3Board ⟨⟨4, 6⟩, ⟨0, -2⟩⟩ true) (PositionAdd ⟨4, 6⟩ ⟨0, -2⟩) =
      ⟨Piece_Pawn, PieceStatus_EnPassantAllowed, PieceColor_White⟩ ∧
    ApplyEnPassant c3AfterPush ⟨⟨3, 4⟩, ⟨1, 1⟩⟩ true ∈
      addPawnSpecialMoves c3AfterPush ⟨3, 4⟩ (GetBoardAt c3AfterPush ⟨3, 4⟩) [] ∧
    GetBoardAt (ApplyMove c3AfterPush ⟨⟨7, 0⟩, ⟨0, 1⟩⟩ true) ⟨4, 4⟩ =
      GetBoardAt c3AfterPush ⟨4, 4⟩ ∧
    GetBoardAt (ApplyMove c3AfterReply ⟨⟨0, 7⟩, ⟨0, -1⟩⟩ true) ⟨4, 4⟩ =
      ⟨Piece_Pawn, PieceStatus_Default, PieceColor_White⟩ := by
  refine ⟨?_, ?_, ?_, ?_⟩
  · have h := C3_en_passant_lifecycle.1 c3Board ⟨⟨4, 6⟩, ⟨0, -2⟩⟩ (by decide) (by decide)
      (by decide)
    rw [h]
    have hc : (GetBoardAt c3Board (⟨⟨4, 6⟩, ⟨0, -2⟩⟩ : FullMove).pos).color =
        PieceColor_White := by decide
    rw [hc]
  · have h := C3_en_passant_lifecycle.2.1 c3AfterPush ⟨3, 4⟩
      (GetBoardAt c3AfterPush ⟨3, 4⟩) [] 1 1 (Or.inl rfl) (by decide) (by decide)
      (by decide) (by decide) (by decide) (by decide) (by decide) (by decide) (by decide)
      (by decide) (by decide)
    exact h
  · exact C3_en_passant_lifecycle.2.2.1 c3AfterPush ⟨⟨7, 0⟩, ⟨0, 1⟩⟩ ⟨4, 4⟩ (by decide)
      (by decide) (by decide) (by decide) (by decide)
  · have h := C3_en_passant_lifecycle.2.2.2 c3AfterReply ⟨⟨0, 7⟩, ⟨0, -1⟩⟩ ⟨4, 4⟩
      (by decide) (by decide) (by decide) (by decide) (by decide)
    rw [h]
    have hc : (GetBoardAt c3AfterReply ⟨4, 4⟩).color = PieceColor_White := by decide
    rw [hc]

theorem C2_check_filter_witness :
    isUnderAttack (ApplyMove twoKingsBoard ⟨⟨0, 7⟩, ⟨0, -1⟩⟩ true) ⟨0, 6⟩
      PieceColor_White = false :=
  C2_check_filter.1 twoKingsBoard PieceColor_White false
    (ApplyMove twoKingsBoard ⟨⟨0, 7⟩, ⟨0, -1⟩⟩ true) ⟨0, 6⟩ [] (by decide) (by decide)

/-- C5: if the side to move has zero legal moves — `GetAllPossibleMoves`
with the check filter enabled in full mode, the legal move list of the
searched game tree, is empty — then `ComputerTurn` reports the
distinguishable "no move available" result (the Go named returns: zero
board and `false`) instead of searching and returning an ordinary
(board, score) pair.  The source's guard counts quick-mode moves; the
full-mode list per piece is the check-filtered quick-mode list's
status-plane variant plus check-filtered castling boards, so an empty
full-mode list forces the quick-mode count to zero. -/
theorem C5_no_move_reported (board : Board) (color : PieceColor)
    (h : GetAllPossibleMoves board color true false = []) :
    ComputerTurn board color = (zeroBoard, false) := by
  have hq : GetAllPossibleMoves board color true true = [] := by
    rw [GetAllPossibleMoves, List.flatMap_eq_nil_iff] at h ⊢
    intro p0 hp0
    exact quickEmpty_of_fullEmpty board p0 (h p0 hp0)
  have hcount : GetPossibleMoveCount board color true = 0 := by
    rw [GetPossibleMoveCount, foldl_add_length_eq]
    rw [GetAllPossibleMoves] at hq
    rw [hq]
    simp
  rw [ComputerTurn, if_pos hcount]

/-- C5 witness: on the stalemate board (black king a8, white queen c7)
Black has no legal move in full mode and `ComputerTurn` answers with the
zero board and `canMove = false`. -/
theorem C5_no_move_reported_witness :
    GetAllPossibleMoves staleBoard PieceColor_Black true false = [] ∧
      ComputerTurn staleBoard PieceColor_Black = (zeroBoard, false) :=
  ⟨by decide, C5_no_move_reported staleBoard PieceColor_Black (by decide)⟩

end ChessAI
